import Mathlib

set_option maxHeartbeats 1000000

/- Verification of src/SpinMutex.h (C++ namespace utils): four busy-waiting
   lock classes (SpinMutex, SharedSpinMutex, ReentrantSpinMutex,
   ReentrantSharedSpinMutex) and the thread-identity helper get_thread_id.

   Machine integers: _owner is a size_t that is only ever assigned and
   compared for equality, modelled as Nat.  _readCount and _reenCount are
   int32_t; signed overflow is undefined behaviour in C++, so they are
   modelled as unbounded Int, and read_locked_count's int32_t -> uint32_t
   conversion is modelled explicitly as reduction modulo 2 ^ 32.

   Sequential semantics: each member function is a pure function on a state
   record.  Blocking members (lock, lock_shared) return Option: none models a
   call whose spin loop never observes the condition it waits for under
   single-caller semantics.  Debug assertions (cassert) are modelled by
   separate boolean functions with suffix _assert, true exactly when every
   assert on the executed path passes; the state functions give the NDEBUG
   (release) semantics, where assert expands to nothing.

   Concurrent semantics: for each class a small-step system over a finite
   pool of threads, with one transition per atomic action of the member
   functions (each atomic exchange / fetch_add / fetch_sub / load / store is
   its own step), interleaved sequentially consistently.  Pool member i has
   thread identity i + 1, so identities are pairwise distinct and never equal
   to the sentinel owner value 0; the degenerate identity 0 that
   get_thread_id produces on some platforms is treated separately (claim C9). -/

/- Thread identity of pool member i in the interleaving systems. -/
def tidOf {n : Nat} (i : Fin n) : Nat := (i : Nat) + 1

/- Character class of the C isspace function in the default locale. -/
def isspace (c : Char) : Bool :=
  c == ' ' || c == '\t' || c == '\n' || c == '\x0b' || c == '\x0c' || c == '\r'

/- Value of the maximal leading run of decimal digits, accumulator style
   (48 is the code of the zero digit). -/
def digitsVal : List Char → Nat → Nat
  | c :: cs, acc => if c.isDigit then digitsVal cs (acc * 10 + (c.toNat - 48)) else acc
  | [], acc => acc

/- Modelled from the C standard library semantics of atoi, which
   src/SpinMutex.h:11 calls: skip leading isspace characters, consume an
   optional sign, then a maximal run of decimal digits; return the value
   read, or 0 when no digits could be consumed.  Overflow of int is
   undefined behaviour for atoi and is not modelled; the claims settled here
   evaluate atoi only where no overflow occurs. -/
def atoi (s : String) : Int :=
  match s.data.dropWhile (fun c => isspace c) with
  | [] => 0
  | c :: rest =>
      if c = '-' then -(digitsVal rest 0 : Int)
      else if c = '+' then (digitsVal rest 0 : Int)
      else (digitsVal (c :: rest) 0 : Int)

/- get_thread_id (src/SpinMutex.h:8-12): atoi applied to the textual form of
   std::this_thread::get_id() (the String argument here; the textual form is
   platform-dependent), with the int result converted to size_t, i.e.
   reduced modulo 2 ^ 64. -/
def get_thread_id (idText : String) : Nat := ((atoi idText) % (2 : Int) ^ 64).toNat

namespace SpinMutex

/- Fields of class SpinMutex (src/SpinMutex.h:48-50). -/
structure State where
  flag : Bool
  owner : Nat
deriving DecidableEq

/- A default-constructed SpinMutex: _flag = false, _owner = 0. -/
def initState : State := { flag := false, owner := 0 }

/- lock (src:20-26), single-caller semantics: the exchange loop succeeds at
   once when _flag is false, otherwise it spins forever (none). -/
def lock (s : State) (tid : Nat) : Option State :=
  if s.flag then none else some { flag := true, owner := tid }

/- try_lock (src:28-34): a relaxed load then at most one exchange;
   sequentially both observe the same _flag. -/
def try_lock (s : State) (tid : Nat) : Bool × State :=
  if s.flag then (false, s) else (true, { flag := true, owner := tid })

/- unlock (src:36-40), NDEBUG semantics: _owner = 0, then _flag = false. -/
def unlock (_s : State) (_tid : Nat) : State := { flag := false, owner := 0 }

/- Debug assertion in unlock (src:37): assert(_owner == g_threadId). -/
def unlock_assert (s : State) (tid : Nat) : Bool := s.owner == tid

/- is_locked (src:42-44). -/
def is_locked (s : State) : Bool := s.flag

/- Program locations of a thread cycling through lock(); critical section;
   unlock() on one SpinMutex.  idle: outside, spinning in lock() included
   (a failed exchange changes nothing).  acq: its exchange just returned
   false (flag went false -> true), _owner write of lock() pending.  cs: in
   the critical section.  rel: unlock() wrote _owner = 0, _flag store
   pending. -/
inductive Pc where
  | idle
  | acq
  | cs
  | rel
deriving DecidableEq

/- Shared memory of one SpinMutex plus the location of each of n threads. -/
structure Cfg (n : Nat) where
  flag : Bool
  owner : Nat
  pc : Fin n → Pc

def initCfg (n : Nat) : Cfg n := { flag := false, owner := 0, pc := fun _ => Pc.idle }

/- One atomic action of lock()/unlock() (src:20-26, 36-40). -/
inductive Step {n : Nat} : Cfg n → Cfg n → Prop where
  | acquire (c : Cfg n) (i : Fin n) (h : c.pc i = Pc.idle) (hf : c.flag = false) :
      Step c { flag := true, owner := c.owner, pc := Function.update c.pc i Pc.acq }
  | writeOwner (c : Cfg n) (i : Fin n) (h : c.pc i = Pc.acq) :
      Step c { flag := c.flag, owner := tidOf i, pc := Function.update c.pc i Pc.cs }
  | clearOwner (c : Cfg n) (i : Fin n) (h : c.pc i = Pc.cs) :
      Step c { flag := c.flag, owner := 0, pc := Function.update c.pc i Pc.rel }
  | clearFlag (c : Cfg n) (i : Fin n) (h : c.pc i = Pc.rel) :
      Step c { flag := false, owner := c.owner, pc := Function.update c.pc i Pc.idle }

def ReachCfg {n : Nat} (c : Cfg n) : Prop := Relation.ReflTransGen Step (initCfg n) c

/- Threads holding or in the middle of acquiring/releasing the flag. -/
def activeB : Pc → Bool
  | Pc.idle => false
  | _ => true

def Inv {n : Nat} (c : Cfg n) : Prop :=
  (∀ i j : Fin n, activeB (c.pc i) = true → activeB (c.pc j) = true → i = j)
  ∧ (∀ i : Fin n, activeB (c.pc i) = true → c.flag = true)

end SpinMutex

namespace SharedSpinMutex

/- Fields of class SharedSpinMutex (src/SpinMutex.h:135-138). -/
structure State where
  readCount : Int
  writeFlag : Bool
  owner : Nat
deriving DecidableEq

def initState : State := { readCount := 0, writeFlag := false, owner := 0 }

/- try_lock (src:71-84).  slip is the number of lock_shared fetch_add 1
   operations by other threads that land between this call's successful
   exchange on _writeFlag and its re-load of _readCount; the branch that
   releases the flag and fails (src:74-77) is reachable exactly when the
   re-load observes a positive count. -/
def try_lock (s : State) (slip : Nat) (tid : Nat) : Bool × State :=
  if s.readCount = 0 then
    if s.writeFlag then (false, s)
    else if 0 < s.readCount + (slip : Int) then
      (false, { s with readCount := s.readCount + (slip : Int), writeFlag := false })
    else
      (true, { s with readCount := s.readCount + (slip : Int), writeFlag := true, owner := tid })
  else (false, s)

/- unlock (src:86-90), NDEBUG semantics. -/
def unlock (s : State) (_tid : Nat) : State := { s with owner := 0, writeFlag := false }

/- Debug assertion in unlock (src:87): assert(_owner == g_threadId). -/
def unlock_assert (s : State) (tid : Nat) : Bool := s.owner == tid

/- lock_shared (src:92-101), single-caller semantics: each loop iteration is
   fetch_add 1, a load of _writeFlag, and on a set flag fetch_sub 1 and
   yield; the loop exits exactly when the flag is observed clear, and a
   never-exiting loop has no net effect on the state (none). -/
def lock_shared (s : State) : Option State :=
  if s.writeFlag then none else some { s with readCount := s.readCount + 1 }

/- try_lock_shared (src:103-115), sequential semantics: both loads of
   _writeFlag observe the same value, so the undo branch (src:106-109) is
   not taken. -/
def try_lock_shared (s : State) : Bool × State :=
  if s.writeFlag then (false, s) else (true, { s with readCount := s.readCount + 1 })

/- unlock_shared (src:117-120), NDEBUG semantics: fetch_sub 1. -/
def unlock_shared (s : State) : State := { s with readCount := s.readCount - 1 }

/- Debug assertion in unlock_shared (src:118): assert(_owner == 0). -/
def unlock_shared_assert (s : State) : Bool := s.owner == 0

/- is_write_locked (src:122-124). -/
def is_write_locked (s : State) : Bool := s.writeFlag

/- read_locked_count (src:126-128): the int32_t _readCount is returned as
   uint32_t, i.e. converted by reduction modulo 2 ^ 32. -/
def read_locked_count (s : State) : Nat := (s.readCount % (2 : Int) ^ 32).toNat

/- is_locked (src:130-133). -/
def is_locked (s : State) : Bool := s.writeFlag || decide (0 < s.readCount)

/- Program locations against one SharedSpinMutex.  shr k: in no call,
   holding k shared holds.  rInc k: inside lock_shared after its fetch_add,
   flag load pending.  rUndo k: the flag load observed true, undo fetch_sub
   pending.  wAcq: won the _writeFlag exchange in lock(), inside the
   reader-drain loop.  wOwn: the drain load observed _readCount <= 0,
   _owner write pending.  wCS: in the exclusive critical section.  wRel:
   unlock() wrote _owner = 0, _writeFlag store pending. -/
inductive Pc where
  | shr (k : Nat)
  | rInc (k : Nat)
  | rUndo (k : Nat)
  | wAcq
  | wOwn
  | wCS
  | wRel
deriving DecidableEq

structure Cfg (n : Nat) where
  readCount : Int
  writeFlag : Bool
  owner : Nat
  pc : Fin n → Pc

def initCfg (n : Nat) : Cfg n :=
  { readCount := 0, writeFlag := false, owner := 0, pc := fun _ => Pc.shr 0 }

/- One atomic action of lock()/unlock()/lock_shared()/unlock_shared()
   (src:59-69, 86-90, 92-101, 117-120).  Exclusive acquisition starts only
   from shr 0 (a thread that holds a shared hold and calls lock() deadlocks
   against itself; such calls are not contract-respecting), and
   unlock_shared is taken only by a thread holding a shared hold. -/
inductive Step {n : Nat} : Cfg n → Cfg n → Prop where
  | rIncStep (c : Cfg n) (i : Fin n) (k : Nat) (h : c.pc i = Pc.shr k) :
      Step c { c with readCount := c.readCount + 1, pc := Function.update c.pc i (Pc.rInc k) }
  | rEnter (c : Cfg n) (i : Fin n) (k : Nat) (h : c.pc i = Pc.rInc k)
      (hf : c.writeFlag = false) :
      Step c { c with pc := Function.update c.pc i (Pc.shr (k + 1)) }
  | rSeeFlag (c : Cfg n) (i : Fin n) (k : Nat) (h : c.pc i = Pc.rInc k)
      (hf : c.writeFlag = true) :
      Step c { c with pc := Function.update c.pc i (Pc.rUndo k) }
  | rUndoDec (c : Cfg n) (i : Fin n) (k : Nat) (h : c.pc i = Pc.rUndo k) :
      Step c { c with readCount := c.readCount - 1, pc := Function.update c.pc i (Pc.shr k) }
  | rRelease (c : Cfg n) (i : Fin n) (k : Nat) (h : c.pc i = Pc.shr (k + 1)) :
      Step c { c with readCount := c.readCount - 1, pc := Function.update c.pc i (Pc.shr k) }
  | wAcquire (c : Cfg n) (i : Fin n) (h : c.pc i = Pc.shr 0) (hf : c.writeFlag = false) :
      Step c { c with writeFlag := true, pc := Function.update c.pc i Pc.wAcq }
  | wDrain (c : Cfg n) (i : Fin n) (h : c.pc i = Pc.wAcq) (hr : c.readCount ≤ 0) :
      Step c { c with pc := Function.update c.pc i Pc.wOwn }
  | wWriteOwner (c : Cfg n) (i : Fin n) (h : c.pc i = Pc.wOwn) :
      Step c { c with owner := tidOf i, pc := Function.update c.pc i Pc.wCS }
  | wClearOwner (c : Cfg n) (i : Fin n) (h : c.pc i = Pc.wCS) :
      Step c { c with owner := 0, pc := Function.update c.pc i Pc.wRel }
  | wClearFlag (c : Cfg n) (i : Fin n) (h : c.pc i = Pc.wRel) :
      Step c { c with writeFlag := false, pc := Function.update c.pc i (Pc.shr 0) }

def ReachCfg {n : Nat} (c : Cfg n) : Prop := Relation.ReflTransGen Step (initCfg n) c

/- Contribution of one thread to _readCount: its holds, plus one while its
   lock_shared increment has neither been confirmed nor undone. -/
def rweight : Pc → Nat
  | Pc.shr k => k
  | Pc.rInc k => k + 1
  | Pc.rUndo k => k + 1
  | _ => 0

def wactive : Pc → Bool
  | Pc.wAcq => true
  | Pc.wOwn => true
  | Pc.wCS => true
  | Pc.wRel => true
  | _ => false

def Inv {n : Nat} (c : Cfg n) : Prop :=
  c.readCount = ∑ j, (rweight (c.pc j) : Int)
  ∧ (∀ i j : Fin n, wactive (c.pc i) = true → wactive (c.pc j) = true → i = j)
  ∧ (∀ i : Fin n, wactive (c.pc i) = true → c.writeFlag = true)

end SharedSpinMutex

namespace ReentrantSpinMutex

/- Fields of class ReentrantSpinMutex (src/SpinMutex.h:195-198). -/
structure State where
  flag : Bool
  owner : Nat
  reenCount : Int
deriving DecidableEq

def initState : State := { flag := false, owner := 0, reenCount := 0 }

/- lock (src:147-160), single-caller semantics: when _owner equals the
   caller's identity the reentrant branch increments _reenCount and returns
   without touching _flag; otherwise the exchange loop succeeds at once when
   _flag is false and spins forever when it is set (none). -/
def lock (s : State) (tid : Nat) : Option State :=
  if s.owner = tid then some { s with reenCount := s.reenCount + 1 }
  else if s.flag then none
  else some { flag := true, owner := tid, reenCount := 1 }

/- try_lock (src:162-178). -/
def try_lock (s : State) (tid : Nat) : Bool × State :=
  if s.owner = tid then (true, { s with reenCount := s.reenCount + 1 })
  else if s.flag then (false, s)
  else (true, { flag := true, owner := tid, reenCount := 1 })

/- unlock (src:180-187), NDEBUG semantics: _reenCount--; only when it
   reaches 0 are _owner = 0 and _flag = false written. -/
def unlock (s : State) (_tid : Nat) : State :=
  if s.reenCount - 1 = 0 then { flag := false, owner := 0, reenCount := s.reenCount - 1 }
  else { s with reenCount := s.reenCount - 1 }

/- Debug assertion in unlock (src:181): assert(_owner == g_threadId). -/
def unlock_assert (s : State) (tid : Nat) : Bool := s.owner == tid

/- is_locked (src:189-191). -/
def is_locked (s : State) : Bool := s.flag

/- reentrant_count (src:193). -/
def reentrant_count (s : State) : Int := s.reenCount

/- N successive lock() calls by one thread starting from a fresh mutex. -/
def lockN (tid : Nat) : Nat → Option State
  | 0 => some initState
  | m + 1 => (lockN tid m).bind fun s => lock s tid

/- k successive unlock() calls by one thread. -/
def unlockN (tid : Nat) : Nat → State → State
  | 0, s => s
  | m + 1, s => unlockN tid m (unlock s tid)

/- One contract-respecting operation: the calling thread has a real identity
   (tid ≠ 0, not the sentinel), and unlock is called only by the current
   owner while at least one acquisition is outstanding. -/
inductive SeqStep : State → State → Prop where
  | lockStep (s t : State) (tid : Nat) (h0 : tid ≠ 0) (h : lock s tid = some t) : SeqStep s t
  | tryStep (s : State) (tid : Nat) (h0 : tid ≠ 0) : SeqStep s (try_lock s tid).2
  | unlockStep (s : State) (tid : Nat) (h0 : tid ≠ 0) (hown : s.owner = tid)
      (hc : 0 < s.reenCount) : SeqStep s (unlock s tid)

def SeqReach (s : State) : Prop := Relation.ReflTransGen SeqStep initState s

/- Program locations for lock()/unlock() cycles on one ReentrantSpinMutex.
   idle: outside.  acq: won the exchange (src:153), _owner write pending.
   wrO: _owner written (src:158), _reenCount write pending.  cs d: in the
   critical section at nesting depth d (the reentrant branch src:148-151
   moves cs d to cs (d+1)).  relA: unlock decremented _reenCount to 0,
   _owner clear pending.  relB: _owner cleared, _flag store pending.
   A thread at idle whose identity equals _owner may also take the
   reentrant branch (fastIdle); the invariant shows this never fires. -/
inductive Pc where
  | idle
  | acq
  | wrO
  | cs (d : Nat)
  | relA
  | relB
deriving DecidableEq

structure Cfg (n : Nat) where
  flag : Bool
  owner : Nat
  reenCount : Int
  pc : Fin n → Pc

def initCfg (n : Nat) : Cfg n :=
  { flag := false, owner := 0, reenCount := 0, pc := fun _ => Pc.idle }

/- One atomic action of lock()/unlock() (src:147-160, 180-187).  The
   _reenCount decrement and the zero test of unlock are merged into one
   step: _reenCount is written only by the thread owning the mutex, so no
   interleaving can change its value between the two accesses. -/
inductive Step {n : Nat} : Cfg n → Cfg n → Prop where
  | fastIdle (c : Cfg n) (i : Fin n) (h : c.pc i = Pc.idle) (hown : c.owner = tidOf i) :
      Step c { c with reenCount := c.reenCount + 1, pc := Function.update c.pc i (Pc.cs 1) }
  | fastNest (c : Cfg n) (i : Fin n) (d : Nat) (h : c.pc i = Pc.cs d)
      (hown : c.owner = tidOf i) :
      Step c { c with
               reenCount := c.reenCount + 1,
               pc := Function.update c.pc i (Pc.cs (d + 1)) }
  | acquire (c : Cfg n) (i : Fin n) (h : c.pc i = Pc.idle) (hown : c.owner ≠ tidOf i)
      (hf : c.flag = false) :
      Step c { c with flag := true, pc := Function.update c.pc i Pc.acq }
  | writeOwner (c : Cfg n) (i : Fin n) (h : c.pc i = Pc.acq) :
      Step c { c with owner := tidOf i, pc := Function.update c.pc i Pc.wrO }
  | writeCount (c : Cfg n) (i : Fin n) (h : c.pc i = Pc.wrO) :
      Step c { c with reenCount := 1, pc := Function.update c.pc i (Pc.cs 1) }
  | unlockDec (c : Cfg n) (i : Fin n) (d : Nat) (h : c.pc i = Pc.cs d) :
      Step c { c with
               reenCount := c.reenCount - 1,
               pc := Function.update c.pc i
                 (if c.reenCount - 1 = 0 then Pc.relA else Pc.cs (d - 1)) }
  | clearOwner (c : Cfg n) (i : Fin n) (h : c.pc i = Pc.relA) :
      Step c { c with owner := 0, pc := Function.update c.pc i Pc.relB }
  | clearFlag (c : Cfg n) (i : Fin n) (h : c.pc i = Pc.relB) :
      Step c { c with flag := false, pc := Function.update c.pc i Pc.idle }

def ReachCfg {n : Nat} (c : Cfg n) : Prop := Relation.ReflTransGen Step (initCfg n) c

def activeB : Pc → Bool
  | Pc.idle => false
  | _ => true

/- Locations at which _owner necessarily holds the thread's identity. -/
def owningB : Pc → Bool
  | Pc.wrO => true
  | Pc.cs _ => true
  | Pc.relA => true
  | _ => false

def Inv {n : Nat} (c : Cfg n) : Prop :=
  (∀ i j : Fin n, activeB (c.pc i) = true → activeB (c.pc j) = true → i = j)
  ∧ (∀ i : Fin n, activeB (c.pc i) = true → c.flag = true)
  ∧ (c.owner ≠ 0 → ∃ i : Fin n, owningB (c.pc i) = true ∧ c.owner = tidOf i)

end ReentrantSpinMutex

namespace ReentrantSharedSpinMutex

/- Fields of class ReentrantSharedSpinMutex (src/SpinMutex.h:306-310). -/
structure State where
  readCount : Int
  writeFlag : Bool
  owner : Nat
  reenCount : Int
deriving DecidableEq

def initState : State :=
  { readCount := 0, writeFlag := false, owner := 0, reenCount := 0 }

/- lock (src:208-227), single-caller semantics.  A call that cannot pass
   the _writeFlag exchange or the reader-drain loop never returns (none);
   the transient _writeFlag effect of a call stuck in the drain loop is
   visible only under interleaving and is modelled in the Cfg system. -/
def lock (s : State) (tid : Nat) : Option State :=
  if s.owner = tid then some { s with reenCount := s.reenCount + 1 }
  else if s.writeFlag then none
  else if 0 < s.readCount then none
  else some { s with writeFlag := true, owner := tid, reenCount := 1 }

/- try_lock (src:229-251), sequential semantics: the re-load of _readCount
   (src:239) observes the same value as the first load. -/
def try_lock (s : State) (tid : Nat) : Bool × State :=
  if s.owner = tid then (true, { s with reenCount := s.reenCount + 1 })
  else if s.readCount = 0 then
    if s.writeFlag then (false, s)
    else (true, { s with writeFlag := true, owner := tid, reenCount := 1 })
  else (false, s)

/- unlock (src:253-260), NDEBUG semantics. -/
def unlock (s : State) (_tid : Nat) : State :=
  if s.reenCount - 1 = 0 then
    { s with writeFlag := false, owner := 0, reenCount := s.reenCount - 1 }
  else { s with reenCount := s.reenCount - 1 }

/- Debug assertion in unlock (src:254): assert(_owner == g_threadId). -/
def unlock_assert (s : State) (tid : Nat) : Bool := s.owner == tid

/- lock_shared (src:262-271): textually identical to
   SharedSpinMutex::lock_shared (src:92-101). -/
def lock_shared (s : State) : Option State :=
  if s.writeFlag then none else some { s with readCount := s.readCount + 1 }

/- try_lock_shared (src:273-285): textually identical to
   SharedSpinMutex::try_lock_shared (src:103-115). -/
def try_lock_shared (s : State) : Bool × State :=
  if s.writeFlag then (false, s) else (true, { s with readCount := s.readCount + 1 })

/- unlock_shared (src:287-289): fetch_sub 1.  Unlike
   SharedSpinMutex::unlock_shared (src:117-120) it contains no assert. -/
def unlock_shared (s : State) : State := { s with readCount := s.readCount - 1 }

/- No assert statement occurs in unlock_shared (src:287-289), so in a debug
   build the call trivially passes. -/
def unlock_shared_assert (_s : State) : Bool := true

/- is_write_locked (src:291-293). -/
def is_write_locked (s : State) : Bool := s.writeFlag

/- read_locked_count (src:295-297): int32_t returned as uint32_t. -/
def read_locked_count (s : State) : Nat := (s.readCount % (2 : Int) ^ 32).toNat

/- is_locked (src:299-302). -/
def is_locked (s : State) : Bool := s.writeFlag || decide (0 < s.readCount)

/- reentrant_count (src:304). -/
def reentrant_count (s : State) : Int := s.reenCount

/- Projection onto the fields SharedSpinMutex also has. -/
def proj (s : State) : SharedSpinMutex.State :=
  { readCount := s.readCount, writeFlag := s.writeFlag, owner := s.owner }

/- One contract-respecting operation (claim C2): exclusive callers have a
   real identity (tid ≠ 0), unlock is called only by the owner while
   holding, unlock_shared only while some shared hold is outstanding. -/
inductive SeqStep : State → State → Prop where
  | lockStep (s t : State) (tid : Nat) (h0 : tid ≠ 0) (h : lock s tid = some t) : SeqStep s t
  | tryStep (s : State) (tid : Nat) (h0 : tid ≠ 0) : SeqStep s (try_lock s tid).2
  | unlockStep (s : State) (tid : Nat) (h0 : tid ≠ 0) (hown : s.owner = tid)
      (hc : 0 < s.reenCount) : SeqStep s (unlock s tid)
  | lockSharedStep (s t : State) (h : lock_shared s = some t) : SeqStep s t
  | trySharedStep (s : State) : SeqStep s (try_lock_shared s).2
  | unlockSharedStep (s : State) (hr : 0 < s.readCount) : SeqStep s (unlock_shared s)

def SeqReach (s : State) : Prop := Relation.ReflTransGen SeqStep initState s

/- Program locations against one ReentrantSharedSpinMutex; reader locations
   as in SharedSpinMutex, writer locations as in ReentrantSpinMutex with
   the extra drain stage: wAcq (draining), wOwn (drain done, _owner write
   pending), wCnt (_owner written, _reenCount write pending), wCS d
   (critical section at depth d), relA, relB (unlock stores pending). -/
inductive Pc where
  | shr (k : Nat)
  | rInc (k : Nat)
  | rUndo (k : Nat)
  | wAcq
  | wOwn
  | wCnt
  | wCS (d : Nat)
  | relA
  | relB
deriving DecidableEq

structure Cfg (n : Nat) where
  readCount : Int
  writeFlag : Bool
  owner : Nat
  reenCount : Int
  pc : Fin n → Pc

def initCfg (n : Nat) : Cfg n :=
  { readCount := 0, writeFlag := false, owner := 0, reenCount := 0, pc := fun _ => Pc.shr 0 }

/- One atomic action of lock()/unlock()/lock_shared()/unlock_shared()
   (src:208-227, 253-260, 262-271, 287-289).  As in ReentrantSpinMutex,
   the decrement-and-test of unlock is one step (only the owner writes
   _reenCount), and the owner comparison plus increment of the reentrant
   branch is one step (_owner can only stop equalling the caller through
   the caller's own unlock). -/
inductive Step {n : Nat} : Cfg n → Cfg n → Prop where
  | rIncStep (c : Cfg n) (i : Fin n) (k : Nat) (h : c.pc i = Pc.shr k) :
      Step c { c with readCount := c.readCount + 1, pc := Function.update c.pc i (Pc.rInc k) }
  | rEnter (c : Cfg n) (i : Fin n) (k : Nat) (h : c.pc i = Pc.rInc k)
      (hf : c.writeFlag = false) :
      Step c { c with pc := Function.update c.pc i (Pc.shr (k + 1)) }
  | rSeeFlag (c : Cfg n) (i : Fin n) (k : Nat) (h : c.pc i = Pc.rInc k)
      (hf : c.writeFlag = true) :
      Step c { c with pc := Function.update c.pc i (Pc.rUndo k) }
  | rUndoDec (c : Cfg n) (i : Fin n) (k : Nat) (h : c.pc i = Pc.rUndo k) :
      Step c { c with readCount := c.readCount - 1, pc := Function.update c.pc i (Pc.shr k) }
  | rRelease (c : Cfg n) (i : Fin n) (k : Nat) (h : c.pc i = Pc.shr (k + 1)) :
      Step c { c with readCount := c.readCount - 1, pc := Function.update c.pc i (Pc.shr k) }
  | fastIdle (c : Cfg n) (i : Fin n) (h : c.pc i = Pc.shr 0) (hown : c.owner = tidOf i) :
      Step c { c with reenCount := c.reenCount + 1, pc := Function.update c.pc i (Pc.wCS 1) }
  | fastNest (c : Cfg n) (i : Fin n) (d : Nat) (h : c.pc i = Pc.wCS d)
      (hown : c.owner = tidOf i) :
      Step c { c with
               reenCount := c.reenCount + 1,
               pc := Function.update c.pc i (Pc.wCS (d + 1)) }
  | wAcquire (c : Cfg n) (i : Fin n) (h : c.pc i = Pc.shr 0) (hown : c.owner ≠ tidOf i)
      (hf : c.writeFlag = false) :
      Step c { c with writeFlag := true, pc := Function.update c.pc i Pc.wAcq }
  | wDrain (c : Cfg n) (i : Fin n) (h : c.pc i = Pc.wAcq) (hr : c.readCount ≤ 0) :
      Step c { c with pc := Function.update c.pc i Pc.wOwn }
  | wWriteOwner (c : Cfg n) (i : Fin n) (h : c.pc i = Pc.wOwn) :
      Step c { c with owner := tidOf i, pc := Function.update c.pc i Pc.wCnt }
  | wWriteCount (c : Cfg n) (i : Fin n) (h : c.pc i = Pc.wCnt) :
      Step c { c with reenCount := 1, pc := Function.update c.pc i (Pc.wCS 1) }
  | unlockDec (c : Cfg n) (i : Fin n) (d : Nat) (h : c.pc i = Pc.wCS d) :
      Step c { c with
               reenCount := c.reenCount - 1,
               pc := Function.update c.pc i
                 (if c.reenCount - 1 = 0 then Pc.relA else Pc.wCS (d - 1)) }
  | clearOwner (c : Cfg n) (i : Fin n) (h : c.pc i = Pc.relA) :
      Step c { c with owner := 0, pc := Function.update c.pc i Pc.relB }
  | clearFlag (c : Cfg n) (i : Fin n) (h : c.pc i = Pc.relB) :
      Step c { c with writeFlag := false, pc := Function.update c.pc i (Pc.shr 0) }

def ReachCfg {n : Nat} (c : Cfg n) : Prop := Relation.ReflTransGen Step (initCfg n) c

def rweight : Pc → Nat
  | Pc.shr k => k
  | Pc.rInc k => k + 1
  | Pc.rUndo k => k + 1
  | _ => 0

def wactive : Pc → Bool
  | Pc.wAcq => true
  | Pc.wOwn => true
  | Pc.wCnt => true
  | Pc.wCS _ => true
  | Pc.relA => true
  | Pc.relB => true
  | _ => false

def owningB : Pc → Bool
  | Pc.wCnt => true
  | Pc.wCS _ => true
  | Pc.relA => true
  | _ => false

def Inv {n : Nat} (c : Cfg n) : Prop :=
  c.readCount = ∑ j, (rweight (c.pc j) : Int)
  ∧ (∀ i j : Fin n, wactive (c.pc i) = true → wactive (c.pc j) = true → i = j)
  ∧ (∀ i : Fin n, wactive (c.pc i) = true → c.writeFlag = true)
  ∧ (c.owner ≠ 0 → ∃ i : Fin n, owningB (c.pc i) = true ∧ c.owner = tidOf i)

end ReentrantSharedSpinMutex

/- Sample thread-id texts for claim C9. -/
def wsDigitText : String := " 1"
def alphaText : String := "x42"

/- Reachable witness configurations for C1: a single thread acquires the
   exclusive lock and sits in its critical section; each definition is the
   exact successor produced by one Step of the corresponding system. -/
def smW1 : SpinMutex.Cfg 1 :=
  { flag := true, owner := (SpinMutex.initCfg 1).owner,
    pc := Function.update (SpinMutex.initCfg 1).pc 0 SpinMutex.Pc.acq }

def smW2 : SpinMutex.Cfg 1 :=
  { flag := smW1.flag, owner := tidOf (0 : Fin 1),
    pc := Function.update smW1.pc 0 SpinMutex.Pc.cs }

def ssmW1 : SharedSpinMutex.Cfg 1 :=
  { SharedSpinMutex.initCfg 1 with
    writeFlag := true,
    pc := Function.update (SharedSpinMutex.initCfg 1).pc 0 SharedSpinMutex.Pc.wAcq }

def ssmW2 : SharedSpinMutex.Cfg 1 :=
  { ssmW1 with pc := Function.update ssmW1.pc 0 SharedSpinMutex.Pc.wOwn }

def ssmW3 : SharedSpinMutex.Cfg 1 :=
  { ssmW2 with
    owner := tidOf (0 : Fin 1),
    pc := Function.update ssmW2.pc 0 SharedSpinMutex.Pc.wCS }

def rsmW1 : ReentrantSpinMutex.Cfg 1 :=
  { ReentrantSpinMutex.initCfg 1 with
    flag := true,
    pc := Function.update (ReentrantSpinMutex.initCfg 1).pc 0 ReentrantSpinMutex.Pc.acq }

def rsmW2 : ReentrantSpinMutex.Cfg 1 :=
  { rsmW1 with
    owner := tidOf (0 : Fin 1),
    pc := Function.update rsmW1.pc 0 ReentrantSpinMutex.Pc.wrO }

def rsmW3 : ReentrantSpinMutex.Cfg 1 :=
  { rsmW2 with
    reenCount := 1,
    pc := Function.update rsmW2.pc 0 (ReentrantSpinMutex.Pc.cs 1) }

def rssmW1 : ReentrantSharedSpinMutex.Cfg 1 :=
  { ReentrantSharedSpinMutex.initCfg 1 with
    writeFlag := true,
    pc := Function.update (ReentrantSharedSpinMutex.initCfg 1).pc 0
      ReentrantSharedSpinMutex.Pc.wAcq }

def rssmW2 : ReentrantSharedSpinMutex.Cfg 1 :=
  { rssmW1 with pc := Function.update rssmW1.pc 0 ReentrantSharedSpinMutex.Pc.wOwn }

def rssmW3 : ReentrantSharedSpinMutex.Cfg 1 :=
  { rssmW2 with
    owner := tidOf (0 : Fin 1),
    pc := Function.update rssmW2.pc 0 ReentrantSharedSpinMutex.Pc.wCnt }

def rssmW4 : ReentrantSharedSpinMutex.Cfg 1 :=
  { rssmW3 with
    reenCount := 1,
    pc := Function.update rssmW3.pc 0 (ReentrantSharedSpinMutex.Pc.wCS 1) }

/- Reachable witness configurations for C6: a single reader mid-lock_shared,
   just after its fetch_add. -/
def ssmR1 : SharedSpinMutex.Cfg 1 :=
  { SharedSpinMutex.initCfg 1 with
    readCount := (SharedSpinMutex.initCfg 1).readCount + 1,
    pc := Function.update (SharedSpinMutex.initCfg 1).pc 0 (SharedSpinMutex.Pc.rInc 0) }

def rssmR1 : ReentrantSharedSpinMutex.Cfg 1 :=
  { ReentrantSharedSpinMutex.initCfg 1 with
    readCount := (ReentrantSharedSpinMutex.initCfg 1).readCount + 1,
    pc := Function.update (ReentrantSharedSpinMutex.initCfg 1).pc 0
      (ReentrantSharedSpinMutex.Pc.rInc 0) }

/- First theorems: claim C8 (ownership assertions of the exclusive unlock)
   and claim C10 (read_locked_count as an int32 -> uint32 conversion). -/

/-- C8: for every lock variant, calling the exclusive unlock() while not
being the recorded owner fails the debug-build assertion, and when the
caller's identity equals the recorded owner the assertion never fires. -/
theorem unlock_assert_iff_owner :
    (∀ (s : SpinMutex.State) (tid : Nat),
        (s.owner ≠ tid → SpinMutex.unlock_assert s tid = false)
      ∧ (s.owner = tid → SpinMutex.unlock_assert s tid = true))
  ∧ (∀ (s : SharedSpinMutex.State) (tid : Nat),
        (s.owner ≠ tid → SharedSpinMutex.unlock_assert s tid = false)
      ∧ (s.owner = tid → SharedSpinMutex.unlock_assert s tid = true))
  ∧ (∀ (s : ReentrantSpinMutex.State) (tid : Nat),
        (s.owner ≠ tid → ReentrantSpinMutex.unlock_assert s tid = false)
      ∧ (s.owner = tid → ReentrantSpinMutex.unlock_assert s tid = true))
  ∧ (∀ (s : ReentrantSharedSpinMutex.State) (tid : Nat),
        (s.owner ≠ tid → ReentrantSharedSpinMutex.unlock_assert s tid = false)
      ∧ (s.owner = tid → ReentrantSharedSpinMutex.unlock_assert s tid = true)) := by
  refine ⟨fun s tid => ⟨fun h => ?_, fun h => ?_⟩, fun s tid => ⟨fun h => ?_, fun h => ?_⟩,
    fun s tid => ⟨fun h => ?_, fun h => ?_⟩, fun s tid => ⟨fun h => ?_, fun h => ?_⟩⟩ <;>
    simp [SpinMutex.unlock_assert, SharedSpinMutex.unlock_assert,
      ReentrantSpinMutex.unlock_assert, ReentrantSharedSpinMutex.unlock_assert, h]

/-- C8 witness: concrete instances of both directions on each variant. -/
theorem unlock_assert_iff_owner_witness :
    SpinMutex.unlock_assert { flag := true, owner := 3 } 4 = false
  ∧ SpinMutex.unlock_assert { flag := true, owner := 3 } 3 = true
  ∧ SharedSpinMutex.unlock_assert { readCount := 0, writeFlag := true, owner := 3 } 4 = false
  ∧ SharedSpinMutex.unlock_assert { readCount := 0, writeFlag := true, owner := 3 } 3 = true
  ∧ ReentrantSpinMutex.unlock_assert { flag := true, owner := 3, reenCount := 1 } 4 = false
  ∧ ReentrantSpinMutex.unlock_assert { flag := true, owner := 3, reenCount := 1 } 3 = true
  ∧ ReentrantSharedSpinMutex.unlock_assert
      { readCount := 0, writeFlag := true, owner := 3, reenCount := 1 } 4 = false
  ∧ ReentrantSharedSpinMutex.unlock_assert
      { readCount := 0, writeFlag := true, owner := 3, reenCount := 1 } 3 = true :=
  ⟨(unlock_assert_iff_owner.1 _ 4).1 (by decide),
   (unlock_assert_iff_owner.1 _ 3).2 rfl,
   (unlock_assert_iff_owner.2.1 _ 4).1 (by decide),
   (unlock_assert_iff_owner.2.1 _ 3).2 rfl,
   (unlock_assert_iff_owner.2.2.1 _ 4).1 (by decide),
   (unlock_assert_iff_owner.2.2.1 _ 3).2 rfl,
   (unlock_assert_iff_owner.2.2.2 _ 4).1 (by decide),
   (unlock_assert_iff_owner.2.2.2 _ 3).2 rfl⟩

/-- C10: read_locked_count returns the signed 32-bit internal reader count
converted to an unsigned 32-bit integer: for a non-negative internal count it
returns that count, and for a negative internal count it returns the count
modulo 2 ^ 32, which is at least 2 ^ 31; stated for both shared variants. -/
theorem read_locked_count_uint32 (s : SharedSpinMutex.State)
    (t : ReentrantSharedSpinMutex.State)
    (hs1 : -(2 ^ 31) ≤ s.readCount) (hs2 : s.readCount < 2 ^ 31)
    (ht1 : -(2 ^ 31) ≤ t.readCount) (ht2 : t.readCount < 2 ^ 31) :
    ((0 ≤ s.readCount → (SharedSpinMutex.read_locked_count s : Int) = s.readCount)
      ∧ (s.readCount < 0 →
          (SharedSpinMutex.read_locked_count s : Int) = s.readCount + 2 ^ 32
          ∧ 2 ^ 31 ≤ SharedSpinMutex.read_locked_count s))
  ∧ ((0 ≤ t.readCount → (ReentrantSharedSpinMutex.read_locked_count t : Int) = t.readCount)
      ∧ (t.readCount < 0 →
          (ReentrantSharedSpinMutex.read_locked_count t : Int) = t.readCount + 2 ^ 32
          ∧ 2 ^ 31 ≤ ReentrantSharedSpinMutex.read_locked_count t)) := by
  have e32 : (2 : Int) ^ 32 = 4294967296 := by norm_num
  have e31 : (2 : Int) ^ 31 = 2147483648 := by norm_num
  rw [e31] at hs1 hs2 ht1 ht2
  constructor
  · unfold SharedSpinMutex.read_locked_count
    rw [e32]
    constructor
    · intro h
      omega
    · intro h
      constructor
      · omega
      · omega
  · unfold ReentrantSharedSpinMutex.read_locked_count
    rw [e32]
    constructor
    · intro h
      omega
    · intro h
      constructor
      · omega
      · omega

/-- C10 witness: a positive count is returned unchanged and a negative count
wraps to at least 2 ^ 31. -/
theorem read_locked_count_uint32_witness :
    (SharedSpinMutex.read_locked_count { readCount := 5, writeFlag := false, owner := 0 } : Int)
      = 5
  ∧ (ReentrantSharedSpinMutex.read_locked_count
      { readCount := -3, writeFlag := false, owner := 0, reenCount := 0 } : Int)
      = -3 + 2 ^ 32 :=
  ⟨(read_locked_count_uint32 { readCount := 5, writeFlag := false, owner := 0 }
      { readCount := -3, writeFlag := false, owner := 0, reenCount := 0 }
      (by norm_num) (by norm_num) (by norm_num) (by norm_num)).1.1 (by norm_num),
   ((read_locked_count_uint32 { readCount := 5, writeFlag := false, owner := 0 }
      { readCount := -3, writeFlag := false, owner := 0, reenCount := 0 }
      (by norm_num) (by norm_num) (by norm_num) (by norm_num)).2.2 (by norm_num)).1⟩

/-- C4: for every reentrant-lock state in which the caller is the owner,
unlock() decrements the reentry count by one; it clears the owner to the
sentinel and releases the flag when the decremented count reaches zero, and
when the decremented count is still positive the flag and the owner field
are left unchanged (and, for the shared variant, the reader count is never
touched). -/
theorem reentrant_unlock_effect :
    (∀ (s : ReentrantSpinMutex.State) (tid : Nat), s.owner = tid →
        (ReentrantSpinMutex.unlock s tid).reenCount = s.reenCount - 1
      ∧ (s.reenCount - 1 = 0 →
          (ReentrantSpinMutex.unlock s tid).owner = 0
          ∧ (ReentrantSpinMutex.unlock s tid).flag = false)
      ∧ (0 < s.reenCount - 1 →
          (ReentrantSpinMutex.unlock s tid).flag = s.flag
          ∧ (ReentrantSpinMutex.unlock s tid).owner = s.owner))
  ∧ (∀ (s : ReentrantSharedSpinMutex.State) (tid : Nat), s.owner = tid →
        (ReentrantSharedSpinMutex.unlock s tid).reenCount = s.reenCount - 1
      ∧ (ReentrantSharedSpinMutex.unlock s tid).readCount = s.readCount
      ∧ (s.reenCount - 1 = 0 →
          (ReentrantSharedSpinMutex.unlock s tid).owner = 0
          ∧ (ReentrantSharedSpinMutex.unlock s tid).writeFlag = false)
      ∧ (0 < s.reenCount - 1 →
          (ReentrantSharedSpinMutex.unlock s tid).writeFlag = s.writeFlag
          ∧ (ReentrantSharedSpinMutex.unlock s tid).owner = s.owner)) := by
  constructor
  · intro s tid _h
    by_cases hc : s.reenCount - 1 = 0
    · refine ⟨?_, fun _ => ⟨?_, ?_⟩, fun hpos => absurd hc (by omega)⟩ <;>
        simp [ReentrantSpinMutex.unlock, hc]
    · refine ⟨?_, fun h0 => absurd h0 hc, fun _ => ⟨?_, ?_⟩⟩ <;>
        simp [ReentrantSpinMutex.unlock, hc]
  · intro s tid _h
    by_cases hc : s.reenCount - 1 = 0
    · refine ⟨?_, ?_, fun _ => ⟨?_, ?_⟩, fun hpos => absurd hc (by omega)⟩ <;>
        simp [ReentrantSharedSpinMutex.unlock, hc]
    · refine ⟨?_, ?_, fun h0 => absurd h0 hc, fun _ => ⟨?_, ?_⟩⟩ <;>
        simp [ReentrantSharedSpinMutex.unlock, hc]

/-- C4 witness: a doubly nested hold stays held with owner and flag intact,
and a final unlock clears owner and flag. -/
theorem reentrant_unlock_effect_witness :
    (ReentrantSpinMutex.unlock { flag := true, owner := 2, reenCount := 3 } 2).flag = true
  ∧ (ReentrantSpinMutex.unlock { flag := true, owner := 2, reenCount := 3 } 2).owner = 2
  ∧ (ReentrantSpinMutex.unlock { flag := true, owner := 2, reenCount := 3 } 2).reenCount = 2
  ∧ (ReentrantSharedSpinMutex.unlock
        { readCount := 0, writeFlag := true, owner := 2, reenCount := 1 } 2).owner = 0
  ∧ (ReentrantSharedSpinMutex.unlock
        { readCount := 0, writeFlag := true, owner := 2, reenCount := 1 } 2).writeFlag
      = false := by
  have h1 := reentrant_unlock_effect.1 { flag := true, owner := 2, reenCount := 3 } 2 rfl
  have h2 := reentrant_unlock_effect.2
    { readCount := 0, writeFlag := true, owner := 2, reenCount := 1 } 2 rfl
  refine ⟨(h1.2.2 (by norm_num)).1, (h1.2.2 (by norm_num)).2, by simpa using h1.1,
    (h2.2.2.1 (by norm_num)).1, (h2.2.2.1 (by norm_num)).2⟩

/-- C5: SharedSpinMutex::try_lock() returns true only if the reader count is
zero and the exchange on the write flag succeeds; if after claiming the flag
a positive reader count is observed (slip interfering increments landed in
the window), the flag is released and the call returns false; and every
failing call leaves the write flag and the owner exactly as they were, with
the reader count changed only by the interfering increments themselves. -/
theorem shared_try_lock_spec (s : SharedSpinMutex.State) (slip : Nat) (tid : Nat) :
    ((SharedSpinMutex.try_lock s slip tid).1 = true →
        s.readCount = 0 ∧ s.writeFlag = false)
  ∧ (s.readCount = 0 → s.writeFlag = false → 0 < slip →
        (SharedSpinMutex.try_lock s slip tid).1 = false
      ∧ (SharedSpinMutex.try_lock s slip tid).2.writeFlag = false)
  ∧ ((SharedSpinMutex.try_lock s slip tid).1 = false →
        (SharedSpinMutex.try_lock s slip tid).2.writeFlag = s.writeFlag
      ∧ (SharedSpinMutex.try_lock s slip tid).2.owner = s.owner
      ∧ (SharedSpinMutex.try_lock s slip tid).2.readCount =
          s.readCount +
            (if s.readCount = 0 ∧ s.writeFlag = false then (slip : Int) else 0)) := by
  unfold SharedSpinMutex.try_lock
  by_cases h0 : s.readCount = 0
  · by_cases hf : s.writeFlag
    · simp [h0, hf]
    · by_cases hs : 0 < s.readCount + (slip : Int)
      · have hs2 : 0 < slip := by omega
        simp [h0, hf, hs, hs2]
      · have hslip : slip = 0 := by omega
        subst hslip
        simp [h0, hf]
  · simp [h0]

/-- C5 witness: from an unheld state with one reader slipping into the
window, try_lock fails and releases the write flag. -/
theorem shared_try_lock_spec_witness :
    (SharedSpinMutex.try_lock SharedSpinMutex.initState 1 7).1 = false
  ∧ (SharedSpinMutex.try_lock SharedSpinMutex.initState 1 7).2.writeFlag = false :=
  (shared_try_lock_spec SharedSpinMutex.initState 1 7).2.1 rfl rfl (by decide)

/-- C7 counterexample: the claim includes identical debug-build assertion
behavior, but at corresponding states with a nonzero owner the assertion in
SharedSpinMutex::unlock_shared fails while ReentrantSharedSpinMutex's
unlock_shared contains no assertion at all, so it trivially passes. -/
theorem shared_side_assert_differs :
    ReentrantSharedSpinMutex.proj
        { readCount := 1, writeFlag := false, owner := 5, reenCount := 0 }
      = { readCount := 1, writeFlag := false, owner := 5 }
  ∧ SharedSpinMutex.unlock_shared_assert { readCount := 1, writeFlag := false, owner := 5 }
      = false
  ∧ ReentrantSharedSpinMutex.unlock_shared_assert
        { readCount := 1, writeFlag := false, owner := 5, reenCount := 0 }
      = true :=
  ⟨rfl, by decide, rfl⟩

/-- C7 amended: lock_shared, try_lock_shared and unlock_shared of
ReentrantSharedSpinMutex compute exactly the results and successor states of
the corresponding SharedSpinMutex operations on the projected state and leave
the reentrancy counter untouched; the debug-build assertion behavior of
unlock_shared, however, differs (SharedSpinMutex asserts _owner == 0,
ReentrantSharedSpinMutex has no assertion). -/
theorem shared_side_refines :
    (∀ rs : ReentrantSharedSpinMutex.State,
        (ReentrantSharedSpinMutex.lock_shared rs).map ReentrantSharedSpinMutex.proj
          = SharedSpinMutex.lock_shared (ReentrantSharedSpinMutex.proj rs)
      ∧ (∀ t, ReentrantSharedSpinMutex.lock_shared rs = some t →
          t.reenCount = rs.reenCount))
  ∧ (∀ rs : ReentrantSharedSpinMutex.State,
        (ReentrantSharedSpinMutex.try_lock_shared rs).1
          = (SharedSpinMutex.try_lock_shared (ReentrantSharedSpinMutex.proj rs)).1
      ∧ ReentrantSharedSpinMutex.proj (ReentrantSharedSpinMutex.try_lock_shared rs).2
          = (SharedSpinMutex.try_lock_shared (ReentrantSharedSpinMutex.proj rs)).2
      ∧ (ReentrantSharedSpinMutex.try_lock_shared rs).2.reenCount = rs.reenCount)
  ∧ (∀ rs : ReentrantSharedSpinMutex.State,
        ReentrantSharedSpinMutex.proj (ReentrantSharedSpinMutex.unlock_shared rs)
          = SharedSpinMutex.unlock_shared (ReentrantSharedSpinMutex.proj rs)
      ∧ (ReentrantSharedSpinMutex.unlock_shared rs).reenCount = rs.reenCount) := by
  refine ⟨fun rs => ⟨?_, ?_⟩, fun rs => ⟨?_, ?_, ?_⟩, fun rs => ⟨?_, ?_⟩⟩
  · by_cases hf : rs.writeFlag <;>
      simp [ReentrantSharedSpinMutex.lock_shared, SharedSpinMutex.lock_shared,
        ReentrantSharedSpinMutex.proj, hf]
  · intro t ht
    by_cases hf : rs.writeFlag
    · simp [ReentrantSharedSpinMutex.lock_shared, hf] at ht
    · simp [ReentrantSharedSpinMutex.lock_shared, hf] at ht
      rw [← ht]
  · by_cases hf : rs.writeFlag <;>
      simp [ReentrantSharedSpinMutex.try_lock_shared, SharedSpinMutex.try_lock_shared,
        ReentrantSharedSpinMutex.proj, hf]
  · by_cases hf : rs.writeFlag <;>
      simp [ReentrantSharedSpinMutex.try_lock_shared, SharedSpinMutex.try_lock_shared,
        ReentrantSharedSpinMutex.proj, hf]
  · by_cases hf : rs.writeFlag <;>
      simp [ReentrantSharedSpinMutex.try_lock_shared, hf]
  · simp [ReentrantSharedSpinMutex.unlock_shared, SharedSpinMutex.unlock_shared,
      ReentrantSharedSpinMutex.proj]
  · simp [ReentrantSharedSpinMutex.unlock_shared]

/-- C7 witness: the refinement applied to a fresh ReentrantSharedSpinMutex,
including the hypothesis-bearing lock_shared conjunct at its successful
result state. -/
theorem shared_side_refines_witness :
    (ReentrantSharedSpinMutex.lock_shared ReentrantSharedSpinMutex.initState).map
        ReentrantSharedSpinMutex.proj
      = SharedSpinMutex.lock_shared
          (ReentrantSharedSpinMutex.proj ReentrantSharedSpinMutex.initState)
  ∧ ({ readCount := 1, writeFlag := false, owner := 0, reenCount := 0 }
        : ReentrantSharedSpinMutex.State).reenCount
      = ReentrantSharedSpinMutex.initState.reenCount :=
  ⟨(shared_side_refines.1 ReentrantSharedSpinMutex.initState).1,
   (shared_side_refines.1 ReentrantSharedSpinMutex.initState).2
     { readCount := 1, writeFlag := false, owner := 0, reenCount := 0 } (by decide)⟩

/- Helper for C9: atoi returns 0 whenever the first character is neither
   whitespace (which atoi would skip) nor a sign nor a digit. -/
theorem atoi_no_digits (c : Char) (t : List Char) (s : String) (hs : s.data = c :: t)
    (hd : c.isDigit = false) (hm : c ≠ '-') (hp : c ≠ '+') (hw : isspace c = false) :
    atoi s = 0 := by
  unfold atoi
  rw [hs]
  simp [List.dropWhile, hw, hm, hp, digitsVal, hd]

/-- C9 counterexample: the claim quantifies over every textual form whose
first character is not a decimal digit or sign, but for the form " 1" (first
character a blank, which is neither) atoi skips the whitespace and
get_thread_id returns 1, not 0. -/
theorem get_thread_id_not_zero_on_whitespace :
    wsDigitText.data.head? = some ' '
  ∧ (' ').isDigit = false ∧ (' ') ≠ '-' ∧ (' ') ≠ '+'
  ∧ get_thread_id wsDigitText = 1 :=
  ⟨rfl, rfl, by decide, by decide, by decide⟩

/-- C9 amended: for every thread-id textual form whose first character is
neither a decimal digit, nor a sign, nor whitespace, get_thread_id returns
0, which equals the sentinel owner value meaning unheld; and for a thread
whose cached identity is 0, ReentrantSpinMutex::lock() on an unlocked mutex
takes the reentrant short-circuit branch, incrementing the reentry count
while never acquiring the flag. -/
theorem get_thread_id_degenerate (s : String) (c : Char) (t : List Char)
    (hs : s.data = c :: t) (hd : c.isDigit = false) (hm : c ≠ '-') (hp : c ≠ '+')
    (hw : isspace c = false)
    (st : ReentrantSpinMutex.State) (hown : st.owner = 0) (hflag : st.flag = false) :
    get_thread_id s = 0
  ∧ ReentrantSpinMutex.lock st 0 = some { st with reenCount := st.reenCount + 1 }
  ∧ (ReentrantSpinMutex.lock st 0).map (fun u => u.flag) = some false := by
  refine ⟨?_, ?_, ?_⟩
  · unfold get_thread_id
    rw [atoi_no_digits c t s hs hd hm hp hw]
    decide
  · simp [ReentrantSpinMutex.lock, hown]
  · simp [ReentrantSpinMutex.lock, hown, hflag]

/-- C9 witness: the form "x42" has a non-digit, non-sign, non-whitespace
first character, get_thread_id maps it to the sentinel 0, and a thread with
cached identity 0 reenters a fresh (unlocked) ReentrantSpinMutex without
setting the flag. -/
theorem get_thread_id_degenerate_witness :
    get_thread_id alphaText = 0
  ∧ ReentrantSpinMutex.lock ReentrantSpinMutex.initState 0
      = some { flag := false, owner := 0, reenCount := 1 }
  ∧ (ReentrantSpinMutex.lock ReentrantSpinMutex.initState 0).map (fun u => u.flag)
      = some false := by
  have h := get_thread_id_degenerate alphaText 'x' [Char.ofNat 52, Char.ofNat 50] rfl
    (by decide) (by decide) (by decide) (by decide)
    ReentrantSpinMutex.initState rfl rfl
  refine ⟨h.1, ?_, h.2.2⟩
  rw [h.2.1]
  decide

/- Helpers for C3: the exact state after N successive lock() calls and after
   k of the matching unlock() calls by a thread with identity tid ≠ 0. -/
theorem lockN_eq (tid : Nat) (h0 : tid ≠ 0) :
    ∀ m : Nat, 1 ≤ m → ReentrantSpinMutex.lockN tid m
      = some { flag := true, owner := tid, reenCount := (m : Int) } := by
  intro m
  induction m with
  | zero => intro h; exact absurd h (by omega)
  | succ k ih =>
      intro _
      by_cases hk : 1 ≤ k
      · unfold ReentrantSpinMutex.lockN
        rw [ih hk]
        simp [ReentrantSpinMutex.lock]
      · have hk0 : k = 0 := by omega
        subst hk0
        have h0s : (0 : Nat) ≠ tid := fun h => h0 h.symm
        simp [ReentrantSpinMutex.lockN, ReentrantSpinMutex.lock,
          ReentrantSpinMutex.initState, h0s]

theorem unlockN_partial (tid : Nat) :
    ∀ (k : Nat) (cnt : Int), (k : Int) < cnt →
      ReentrantSpinMutex.unlockN tid k { flag := true, owner := tid, reenCount := cnt }
        = { flag := true, owner := tid, reenCount := cnt - (k : Int) } := by
  intro k
  induction k with
  | zero => intro cnt h; simp [ReentrantSpinMutex.unlockN]
  | succ m ih =>
      intro cnt h
      have hne : ¬(cnt - 1 = 0) := by push_cast at h; omega
      unfold ReentrantSpinMutex.unlockN
      rw [show ReentrantSpinMutex.unlock { flag := true, owner := tid, reenCount := cnt } tid
          = { flag := true, owner := tid, reenCount := cnt - 1 } from by
        simp [ReentrantSpinMutex.unlock, hne]]
      rw [ih (cnt - 1) (by push_cast at h ⊢; omega)]
      have harith : cnt - 1 - (m : Int) = cnt - ((m + 1 : Nat) : Int) := by push_cast; ring
      rw [harith]

theorem unlockN_full (tid : Nat) :
    ∀ m : Nat, 1 ≤ m →
      ReentrantSpinMutex.unlockN tid m
          { flag := true, owner := tid, reenCount := (m : Int) }
        = { flag := false, owner := 0, reenCount := 0 } := by
  intro m
  induction m with
  | zero => intro h; exact absurd h (by omega)
  | succ k ih =>
      intro _
      by_cases hk : 1 ≤ k
      · unfold ReentrantSpinMutex.unlockN
        have hne : ¬(((k + 1 : Nat) : Int) - 1 = 0) := by push_cast; omega
        have hstep : ReentrantSpinMutex.unlock
              { flag := true, owner := tid, reenCount := ((k + 1 : Nat) : Int) } tid
            = { flag := true, owner := tid, reenCount := (k : Int) } := by
          simp only [ReentrantSpinMutex.unlock]
          rw [if_neg hne]
          have harith : ((k + 1 : Nat) : Int) - 1 = (k : Int) := by push_cast; ring
          rw [harith]
        rw [hstep]
        exact ih hk
      · have hk0 : k = 0 := by omega
        subst hk0
        simp [ReentrantSpinMutex.unlockN, ReentrantSpinMutex.unlock]

/-- C3: a reentrant lock already owned by the caller answers lock() by
incrementing the reentry count and returning at once, leaving the flag
untouched (both reentrant variants); and a thread with a real identity
calling lock() N >= 1 times in succession on a fresh ReentrantSpinMutex
succeeds every time, after which reentrant_count equals N, the lock stays
held through the first N - 1 matching unlock() calls, and exactly the N-th
unlock() releases the flag and clears the owner. -/
theorem reentrant_lock_nesting :
    (∀ (s : ReentrantSpinMutex.State) (tid : Nat), s.owner = tid →
        ReentrantSpinMutex.lock s tid = some { s with reenCount := s.reenCount + 1 })
  ∧ (∀ (s : ReentrantSharedSpinMutex.State) (tid : Nat), s.owner = tid →
        ReentrantSharedSpinMutex.lock s tid = some { s with reenCount := s.reenCount + 1 })
  ∧ (∀ (tid N : Nat), tid ≠ 0 → 1 ≤ N →
        ReentrantSpinMutex.lockN tid N
          = some { flag := true, owner := tid, reenCount := (N : Int) }
      ∧ (∀ s, ReentrantSpinMutex.lockN tid N = some s →
          ReentrantSpinMutex.reentrant_count s = (N : Int))
      ∧ (∀ k : Nat, k < N →
          ReentrantSpinMutex.unlockN tid k
              { flag := true, owner := tid, reenCount := (N : Int) }
            = { flag := true, owner := tid, reenCount := (N : Int) - (k : Int) })
      ∧ ReentrantSpinMutex.unlockN tid N
            { flag := true, owner := tid, reenCount := (N : Int) }
          = { flag := false, owner := 0, reenCount := 0 }) := by
  refine ⟨?_, ?_, ?_⟩
  · intro s tid h
    simp [ReentrantSpinMutex.lock, h]
  · intro s tid h
    simp [ReentrantSharedSpinMutex.lock, h]
  · intro tid N h0 hN
    refine ⟨lockN_eq tid h0 N hN, ?_, ?_, unlockN_full tid N hN⟩
    · intro s hs
      rw [lockN_eq tid h0 N hN] at hs
      injection hs with hs
      rw [← hs]
      rfl
    · intro k hk
      exact unlockN_partial tid k (N : Int) (by omega)

/-- C3 witness: three nested locks by thread 1, two unlocks keep it held at
depth 1, the third releases it; and the reentrant branch on an owned
ReentrantSharedSpinMutex. -/
theorem reentrant_lock_nesting_witness :
    ReentrantSpinMutex.lockN 1 3 = some { flag := true, owner := 1, reenCount := 3 }
  ∧ ReentrantSpinMutex.unlockN 1 2 { flag := true, owner := 1, reenCount := 3 }
      = { flag := true, owner := 1, reenCount := 1 }
  ∧ ReentrantSpinMutex.unlockN 1 3 { flag := true, owner := 1, reenCount := 3 }
      = { flag := false, owner := 0, reenCount := 0 }
  ∧ ReentrantSharedSpinMutex.lock
        { readCount := 0, writeFlag := true, owner := 5, reenCount := 2 } 5
      = some { readCount := 0, writeFlag := true, owner := 5, reenCount := 3 } := by
  have h := reentrant_lock_nesting.2.2 1 3 (by decide) (by decide)
  have h2 := reentrant_lock_nesting.2.1
    { readCount := 0, writeFlag := true, owner := 5, reenCount := 2 } 5 rfl
  refine ⟨?_, ?_, ?_, ?_⟩
  · simpa using h.1
  · simpa using h.2.2.1 2 (by decide)
  · simpa using h.2.2.2
  · simpa using h2

/- Helpers for C2: case analyses of the reentrant operations. -/
theorem rsm_lock_cases (s t : ReentrantSpinMutex.State) (tid : Nat)
    (h : ReentrantSpinMutex.lock s tid = some t) :
    (s.owner = tid ∧ t.owner = s.owner ∧ t.reenCount = s.reenCount + 1)
  ∨ (s.owner ≠ tid ∧ t.owner = tid ∧ t.reenCount = 1) := by
  unfold ReentrantSpinMutex.lock at h
  by_cases hown : s.owner = tid
  · rw [if_pos hown] at h
    injection h with h
    exact Or.inl ⟨hown, by rw [← h], by rw [← h]⟩
  · rw [if_neg hown] at h
    by_cases hf : s.flag
    · rw [if_pos hf] at h
      cases h
    · rw [if_neg hf] at h
      injection h with h
      exact Or.inr ⟨hown, by rw [← h], by rw [← h]⟩

theorem rsm_try_cases (s : ReentrantSpinMutex.State) (tid : Nat) :
    (s.owner = tid ∧ (ReentrantSpinMutex.try_lock s tid).2.owner = s.owner
      ∧ (ReentrantSpinMutex.try_lock s tid).2.reenCount = s.reenCount + 1)
  ∨ (s.owner ≠ tid ∧ (ReentrantSpinMutex.try_lock s tid).2.owner = tid
      ∧ (ReentrantSpinMutex.try_lock s tid).2.reenCount = 1)
  ∨ ((ReentrantSpinMutex.try_lock s tid).2 = s) := by
  unfold ReentrantSpinMutex.try_lock
  by_cases hown : s.owner = tid
  · rw [if_pos hown]
    exact Or.inl ⟨hown, rfl, rfl⟩
  · rw [if_neg hown]
    by_cases hf : s.flag
    · rw [if_pos hf]
      exact Or.inr (Or.inr rfl)
    · rw [if_neg hf]
      exact Or.inr (Or.inl ⟨hown, rfl, rfl⟩)

theorem rsm_unlock_cases (s : ReentrantSpinMutex.State) (tid : Nat) :
    ((ReentrantSpinMutex.unlock s tid).reenCount = s.reenCount - 1)
  ∧ (s.reenCount - 1 = 0 → (ReentrantSpinMutex.unlock s tid).owner = 0)
  ∧ (s.reenCount - 1 ≠ 0 → (ReentrantSpinMutex.unlock s tid).owner = s.owner) := by
  unfold ReentrantSpinMutex.unlock
  by_cases hc : s.reenCount - 1 = 0
  · rw [if_pos hc]
    exact ⟨rfl, fun _ => rfl, fun hne => absurd hc hne⟩
  · rw [if_neg hc]
    exact ⟨rfl, fun h0 => absurd h0 hc, fun _ => rfl⟩

theorem rssm_lock_cases (s t : ReentrantSharedSpinMutex.State) (tid : Nat)
    (h : ReentrantSharedSpinMutex.lock s tid = some t) :
    (s.owner = tid ∧ t.owner = s.owner ∧ t.reenCount = s.reenCount + 1)
  ∨ (s.owner ≠ tid ∧ t.owner = tid ∧ t.reenCount = 1) := by
  unfold ReentrantSharedSpinMutex.lock at h
  by_cases hown : s.owner = tid
  · rw [if_pos hown] at h
    injection h with h
    exact Or.inl ⟨hown, by rw [← h], by rw [← h]⟩
  · rw [if_neg hown] at h
    by_cases hf : s.writeFlag
    · rw [if_pos hf] at h
      cases h
    · rw [if_neg hf] at h
      by_cases hr : 0 < s.readCount
      · rw [if_pos hr] at h
        cases h
      · rw [if_neg hr] at h
        injection h with h
        exact Or.inr ⟨hown, by rw [← h], by rw [← h]⟩

theorem rssm_try_cases (s : ReentrantSharedSpinMutex.State) (tid : Nat) :
    (s.owner = tid ∧ (ReentrantSharedSpinMutex.try_lock s tid).2.owner = s.owner
      ∧ (ReentrantSharedSpinMutex.try_lock s tid).2.reenCount = s.reenCount + 1)
  ∨ (s.owner ≠ tid ∧ (ReentrantSharedSpinMutex.try_lock s tid).2.owner = tid
      ∧ (ReentrantSharedSpinMutex.try_lock s tid).2.reenCount = 1)
  ∨ ((ReentrantSharedSpinMutex.try_lock s tid).2 = s) := by
  unfold ReentrantSharedSpinMutex.try_lock
  by_cases hown : s.owner = tid
  · rw [if_pos hown]
    exact Or.inl ⟨hown, rfl, rfl⟩
  · rw [if_neg hown]
    by_cases hr : s.readCount = 0
    · rw [if_pos hr]
      by_cases hf : s.writeFlag
      · rw [if_pos hf]
        exact Or.inr (Or.inr rfl)
      · rw [if_neg hf]
        exact Or.inr (Or.inl ⟨hown, rfl, rfl⟩)
    · rw [if_neg hr]
      exact Or.inr (Or.inr rfl)

theorem rssm_unlock_cases (s : ReentrantSharedSpinMutex.State) (tid : Nat) :
    ((ReentrantSharedSpinMutex.unlock s tid).reenCount = s.reenCount - 1)
  ∧ (s.reenCount - 1 = 0 → (ReentrantSharedSpinMutex.unlock s tid).owner = 0)
  ∧ (s.reenCount - 1 ≠ 0 → (ReentrantSharedSpinMutex.unlock s tid).owner = s.owner) := by
  unfold ReentrantSharedSpinMutex.unlock
  by_cases hc : s.reenCount - 1 = 0
  · rw [if_pos hc]
    exact ⟨rfl, fun _ => rfl, fun hne => absurd hc hne⟩
  · rw [if_neg hc]
    exact ⟨rfl, fun h0 => absurd h0 hc, fun _ => rfl⟩

/- C2 helpers: the shared-side operations leave owner and reentry count
   untouched. -/
theorem rssm_lockshared_frame (s t : ReentrantSharedSpinMutex.State)
    (h : ReentrantSharedSpinMutex.lock_shared s = some t) :
    t.owner = s.owner ∧ t.reenCount = s.reenCount := by
  unfold ReentrantSharedSpinMutex.lock_shared at h
  by_cases hf : s.writeFlag
  · rw [if_pos hf] at h
    cases h
  · rw [if_neg hf] at h
    injection h with h
    rw [← h]
    exact ⟨rfl, rfl⟩

theorem rssm_tryshared_frame (s : ReentrantSharedSpinMutex.State) :
    (ReentrantSharedSpinMutex.try_lock_shared s).2.owner = s.owner
  ∧ (ReentrantSharedSpinMutex.try_lock_shared s).2.reenCount = s.reenCount := by
  unfold ReentrantSharedSpinMutex.try_lock_shared
  by_cases hf : s.writeFlag
  · rw [if_pos hf]
    exact ⟨rfl, rfl⟩
  · rw [if_neg hf]
    exact ⟨rfl, rfl⟩

/- C2 helper: the strong sequential invariant for ReentrantSpinMutex. -/
theorem rsm_seq_inv {s : ReentrantSpinMutex.State} (h : ReentrantSpinMutex.SeqReach s) :
    (s.owner = 0 ∧ s.reenCount = 0) ∨ (s.owner ≠ 0 ∧ 0 < s.reenCount) := by
  induction h with
  | refl => exact Or.inl ⟨rfl, rfl⟩
  | tail hr hstep ih =>
      rename_i u v
      cases hstep with
      | lockStep x tid h0 h =>
          rcases rsm_lock_cases u v tid h with ⟨hown, hto, htc⟩ | ⟨_, hto, htc⟩
          · rcases ih with ⟨ho, _⟩ | ⟨ho, hc⟩
            · exact absurd (ho.symm.trans hown) (fun hh => h0 hh.symm)
            · exact Or.inr ⟨by rw [hto]; exact ho, by omega⟩
          · exact Or.inr ⟨by rw [hto]; exact h0, by omega⟩
      | tryStep tid h0 =>
          rcases rsm_try_cases u tid with ⟨hown, hto, htc⟩ | ⟨_, hto, htc⟩ | heq
          · rcases ih with ⟨ho, _⟩ | ⟨ho, hc⟩
            · exact absurd (ho.symm.trans hown) (fun hh => h0 hh.symm)
            · exact Or.inr ⟨by rw [hto]; exact ho, by omega⟩
          · exact Or.inr ⟨by rw [hto]; exact h0, by omega⟩
          · rw [heq]
            exact ih
      | unlockStep tid h0 hown hc =>
          obtain ⟨htc, hz, hnz⟩ := rsm_unlock_cases u tid
          by_cases hcc : u.reenCount - 1 = 0
          · exact Or.inl ⟨hz hcc, by omega⟩
          · rcases ih with ⟨ho, _⟩ | ⟨ho, _⟩
            · exact absurd (ho.symm.trans hown) (fun hh => h0 hh.symm)
            · exact Or.inr ⟨by rw [hnz hcc]; exact ho, by omega⟩

/- C2 helper: the strong sequential invariant for ReentrantSharedSpinMutex. -/
theorem rssm_seq_inv {s : ReentrantSharedSpinMutex.State}
    (h : ReentrantSharedSpinMutex.SeqReach s) :
    (s.owner = 0 ∧ s.reenCount = 0) ∨ (s.owner ≠ 0 ∧ 0 < s.reenCount) := by
  induction h with
  | refl => exact Or.inl ⟨rfl, rfl⟩
  | tail hr hstep ih =>
      rename_i u v
      cases hstep with
      | lockStep x tid h0 h =>
          rcases rssm_lock_cases u v tid h with ⟨hown, hto, htc⟩ | ⟨_, hto, htc⟩
          · rcases ih with ⟨ho, _⟩ | ⟨ho, hc⟩
            · exact absurd (ho.symm.trans hown) (fun hh => h0 hh.symm)
            · exact Or.inr ⟨by rw [hto]; exact ho, by omega⟩
          · exact Or.inr ⟨by rw [hto]; exact h0, by omega⟩
      | tryStep tid h0 =>
          rcases rssm_try_cases u tid with ⟨hown, hto, htc⟩ | ⟨_, hto, htc⟩ | heq
          · rcases ih with ⟨ho, _⟩ | ⟨ho, hc⟩
            · exact absurd (ho.symm.trans hown) (fun hh => h0 hh.symm)
            · exact Or.inr ⟨by rw [hto]; exact ho, by omega⟩
          · exact Or.inr ⟨by rw [hto]; exact h0, by omega⟩
          · rw [heq]
            exact ih
      | unlockStep tid h0 hown hc =>
          obtain ⟨htc, hz, hnz⟩ := rssm_unlock_cases u tid
          by_cases hcc : u.reenCount - 1 = 0
          · exact Or.inl ⟨hz hcc, by omega⟩
          · rcases ih with ⟨ho, _⟩ | ⟨ho, _⟩
            · exact absurd (ho.symm.trans hown) (fun hh => h0 hh.symm)
            · exact Or.inr ⟨by rw [hnz hcc]; exact ho, by omega⟩
      | lockSharedStep x h =>
          obtain ⟨ho, hc⟩ := rssm_lockshared_frame u v h
          rcases ih with ⟨h1, h2⟩ | ⟨h1, h2⟩
          · exact Or.inl ⟨by rw [ho]; exact h1, by omega⟩
          · exact Or.inr ⟨by rw [ho]; exact h1, by omega⟩
      | trySharedStep =>
          obtain ⟨ho, hc⟩ := rssm_tryshared_frame u
          rcases ih with ⟨h1, h2⟩ | ⟨h1, h2⟩
          · exact Or.inl ⟨by rw [ho]; exact h1, by omega⟩
          · exact Or.inr ⟨by rw [ho]; exact h1, by omega⟩
      | unlockSharedStep hr2 =>
          exact ih

/-- C2: in every state of a reentrant variant reachable by contract-
respecting operations, the reentry count is zero exactly when the owner
field holds the sentinel 0, and positive exactly when the owner field holds
a thread identity; every operation preserves this. -/
theorem reentrant_count_owner_invariant :
    (∀ s : ReentrantSpinMutex.State, ReentrantSpinMutex.SeqReach s →
        (s.reenCount = 0 ↔ s.owner = 0) ∧ (0 < s.reenCount ↔ s.owner ≠ 0))
  ∧ (∀ s : ReentrantSharedSpinMutex.State, ReentrantSharedSpinMutex.SeqReach s →
        (s.reenCount = 0 ↔ s.owner = 0) ∧ (0 < s.reenCount ↔ s.owner ≠ 0)) := by
  constructor
  · intro s h
    rcases rsm_seq_inv h with ⟨ho, hc⟩ | ⟨ho, hc⟩
    · exact ⟨⟨fun _ => ho, fun _ => hc⟩,
        ⟨fun hlt => absurd hlt (by omega), fun hne => absurd ho hne⟩⟩
    · exact ⟨⟨fun h0 => absurd h0 (by omega), fun h0 => absurd h0 ho⟩,
        ⟨fun _ => ho, fun _ => hc⟩⟩
  · intro s h
    rcases rssm_seq_inv h with ⟨ho, hc⟩ | ⟨ho, hc⟩
    · exact ⟨⟨fun _ => ho, fun _ => hc⟩,
        ⟨fun hlt => absurd hlt (by omega), fun hne => absurd ho hne⟩⟩
    · exact ⟨⟨fun h0 => absurd h0 (by omega), fun h0 => absurd h0 ho⟩,
        ⟨fun _ => ho, fun _ => hc⟩⟩

/-- C2 witness: the invariant instantiated at a reachable state with a held
lock, reached by one contract-respecting lock() call on each variant. -/
theorem reentrant_count_owner_invariant_witness :
    (0 < ({ flag := true, owner := 1, reenCount := 1 }
        : ReentrantSpinMutex.State).reenCount
      ↔ ({ flag := true, owner := 1, reenCount := 1 }
        : ReentrantSpinMutex.State).owner ≠ 0)
  ∧ (0 < ({ readCount := 0, writeFlag := true, owner := 1, reenCount := 1 }
        : ReentrantSharedSpinMutex.State).reenCount
      ↔ ({ readCount := 0, writeFlag := true, owner := 1, reenCount := 1 }
        : ReentrantSharedSpinMutex.State).owner ≠ 0) := by
  have hreach1 : ReentrantSpinMutex.SeqReach { flag := true, owner := 1, reenCount := 1 } :=
    Relation.ReflTransGen.tail Relation.ReflTransGen.refl
      (ReentrantSpinMutex.SeqStep.lockStep ReentrantSpinMutex.initState
        { flag := true, owner := 1, reenCount := 1 } 1 (by decide) (by decide))
  have hreach2 : ReentrantSharedSpinMutex.SeqReach
      { readCount := 0, writeFlag := true, owner := 1, reenCount := 1 } :=
    Relation.ReflTransGen.tail Relation.ReflTransGen.refl
      (ReentrantSharedSpinMutex.SeqStep.lockStep ReentrantSharedSpinMutex.initState
        { readCount := 0, writeFlag := true, owner := 1, reenCount := 1 } 1
        (by decide) (by decide))
  exact ⟨(reentrant_count_owner_invariant.1 _ hreach1).2,
    (reentrant_count_owner_invariant.2 _ hreach2).2⟩

/- Helpers for C1/C6: pool identities are nonzero and injective, and summing
   over a pointwise update. -/
theorem tidOf_ne_zero {n : Nat} (i : Fin n) : tidOf i ≠ 0 := by
  simp [tidOf]

theorem tidOf_inj {n : Nat} {i j : Fin n} (h : tidOf i = tidOf j) : i = j := by
  apply Fin.ext
  simpa [tidOf] using h

theorem sum_update_int {n : Nat} (f : Fin n → Int) (i : Fin n) (b : Int) :
    (∑ j, Function.update f i b j) = (∑ j, f j) - f i + b := by
  rw [Finset.sum_update_of_mem (Finset.mem_univ i), Finset.sdiff_singleton_eq_erase,
    ← Finset.add_sum_erase Finset.univ f (Finset.mem_univ i)]
  ring

/- C1 helpers: invariant of the SpinMutex system. -/
theorem sm_inv_init (n : Nat) : SpinMutex.Inv (SpinMutex.initCfg n) := by
  constructor
  · intro i j hi
    simp [SpinMutex.initCfg, SpinMutex.activeB] at hi
  · intro i hi
    simp [SpinMutex.initCfg, SpinMutex.activeB] at hi

theorem sm_inv_step {n : Nat} {c d : SpinMutex.Cfg n} (hI : SpinMutex.Inv c)
    (hs : SpinMutex.Step c d) : SpinMutex.Inv d := by
  obtain ⟨hU, hF⟩ := hI
  cases hs with
  | acquire i h hf =>
      have key : ∀ x : Fin n,
          SpinMutex.activeB (Function.update c.pc i SpinMutex.Pc.acq x) = true → x = i := by
        intro x hx
        by_cases hxi : x = i
        · exact hxi
        · rw [Function.update_noteq hxi] at hx
          have hfx := hF x hx
          rw [hf] at hfx
          cases hfx
      refine ⟨?_, ?_⟩
      · intro a b ha hb
        have ha2 : SpinMutex.activeB (Function.update c.pc i SpinMutex.Pc.acq a) = true := ha
        have hb2 : SpinMutex.activeB (Function.update c.pc i SpinMutex.Pc.acq b) = true := hb
        rw [key a ha2, key b hb2]
      · intro a _ha
        rfl
  | writeOwner i h =>
      have key : ∀ x : Fin n,
          SpinMutex.activeB (Function.update c.pc i SpinMutex.Pc.cs x) = true →
            SpinMutex.activeB (c.pc x) = true := by
        intro x hx
        by_cases hxi : x = i
        · subst hxi
          rw [h]
          rfl
        · rw [Function.update_noteq hxi] at hx
          exact hx
      refine ⟨?_, ?_⟩
      · intro a b ha hb
        exact hU a b (key a ha) (key b hb)
      · intro a ha
        exact hF a (key a ha)
  | clearOwner i h =>
      have key : ∀ x : Fin n,
          SpinMutex.activeB (Function.update c.pc i SpinMutex.Pc.rel x) = true →
            SpinMutex.activeB (c.pc x) = true := by
        intro x hx
        by_cases hxi : x = i
        · subst hxi
          rw [h]
          rfl
        · rw [Function.update_noteq hxi] at hx
          exact hx
      refine ⟨?_, ?_⟩
      · intro a b ha hb
        exact hU a b (key a ha) (key b hb)
      · intro a ha
        exact hF a (key a ha)
  | clearFlag i h =>
      have key : ∀ x : Fin n,
          SpinMutex.activeB (Function.update c.pc i SpinMutex.Pc.idle x) = true → False := by
        intro x hx
        by_cases hxi : x = i
        · subst hxi
          rw [Function.update_same] at hx
          simp [SpinMutex.activeB] at hx
        · rw [Function.update_noteq hxi] at hx
          exact hxi (hU x i hx (by rw [h]; rfl))
      refine ⟨?_, ?_⟩
      · intro a b ha hb
        exact (key a ha).elim
      · intro a ha
        exact (key a ha).elim

theorem sm_inv_reach {n : Nat} {c : SpinMutex.Cfg n} (h : SpinMutex.ReachCfg c) :
    SpinMutex.Inv c := by
  induction h with
  | refl => exact sm_inv_init n
  | tail hr hstep ih => exact sm_inv_step ih hstep

/- C1 helpers: invariant of the ReentrantSpinMutex system. -/
theorem rsm_owning_active {p : ReentrantSpinMutex.Pc}
    (h : ReentrantSpinMutex.owningB p = true) : ReentrantSpinMutex.activeB p = true := by
  cases p <;> simp [ReentrantSpinMutex.owningB, ReentrantSpinMutex.activeB] at h ⊢

theorem rsm_inv_init (n : Nat) : ReentrantSpinMutex.Inv (ReentrantSpinMutex.initCfg n) := by
  refine ⟨?_, ?_, ?_⟩
  · intro i j hi
    simp [ReentrantSpinMutex.initCfg, ReentrantSpinMutex.activeB] at hi
  · intro i hi
    simp [ReentrantSpinMutex.initCfg, ReentrantSpinMutex.activeB] at hi
  · intro hne
    exact absurd rfl hne

theorem rsm_inv_step {n : Nat} {c d : ReentrantSpinMutex.Cfg n}
    (hI : ReentrantSpinMutex.Inv c) (hs : ReentrantSpinMutex.Step c d) :
    ReentrantSpinMutex.Inv d := by
  obtain ⟨hU, hF, hD⟩ := hI
  cases hs with
  | fastIdle i h hown =>
      exfalso
      obtain ⟨a, haOwn, haEq⟩ := hD (by rw [hown]; exact tidOf_ne_zero i)
      have hai : a = i := tidOf_inj (haEq.symm.trans hown)
      subst hai
      rw [h] at haOwn
      simp [ReentrantSpinMutex.owningB] at haOwn
  | fastNest i d h hown =>
      have key : ∀ x : Fin n,
          ReentrantSpinMutex.activeB
              (Function.update c.pc i (ReentrantSpinMutex.Pc.cs (d + 1)) x) = true →
            ReentrantSpinMutex.activeB (c.pc x) = true := by
        intro x hx
        by_cases hxi : x = i
        · subst hxi
          rw [h]
          rfl
        · rw [Function.update_noteq hxi] at hx
          exact hx
      refine ⟨?_, ?_, ?_⟩
      · intro a b ha hb
        exact hU a b (key a ha) (key b hb)
      · intro a ha
        exact hF a (key a ha)
      · intro hne
        obtain ⟨a, haOwn, haEq⟩ := hD hne
        by_cases hai : a = i
        · subst hai
          have hupd : ReentrantSpinMutex.owningB
              (Function.update c.pc a (ReentrantSpinMutex.Pc.cs (d + 1)) a) = true := by
            rw [Function.update_same]
            rfl
          exact ⟨a, hupd, haEq⟩
        · have hupd : ReentrantSpinMutex.owningB
              (Function.update c.pc i (ReentrantSpinMutex.Pc.cs (d + 1)) a) = true := by
            rw [Function.update_noteq hai]
            exact haOwn
          exact ⟨a, hupd, haEq⟩
  | acquire i h hown hf =>
      have key : ∀ x : Fin n,
          ReentrantSpinMutex.activeB
              (Function.update c.pc i ReentrantSpinMutex.Pc.acq x) = true → x = i := by
        intro x hx
        by_cases hxi : x = i
        · exact hxi
        · rw [Function.update_noteq hxi] at hx
          have hfx := hF x hx
          rw [hf] at hfx
          cases hfx
      refine ⟨?_, ?_, ?_⟩
      · intro a b ha hb
        rw [key a ha, key b hb]
      · intro a _ha
        rfl
      · intro hne
        obtain ⟨a, haOwn, _⟩ := hD hne
        have hfa := hF a (rsm_owning_active haOwn)
        rw [hf] at hfa
        cases hfa
  | writeOwner i h =>
      have key : ∀ x : Fin n,
          ReentrantSpinMutex.activeB
              (Function.update c.pc i ReentrantSpinMutex.Pc.wrO x) = true →
            ReentrantSpinMutex.activeB (c.pc x) = true := by
        intro x hx
        by_cases hxi : x = i
        · subst hxi
          rw [h]
          rfl
        · rw [Function.update_noteq hxi] at hx
          exact hx
      refine ⟨?_, ?_, ?_⟩
      · intro a b ha hb
        exact hU a b (key a ha) (key b hb)
      · intro a ha
        exact hF a (key a ha)
      · intro _hne
        have hupd : ReentrantSpinMutex.owningB
            (Function.update c.pc i ReentrantSpinMutex.Pc.wrO i) = true := by
          rw [Function.update_same]
          rfl
        exact ⟨i, hupd, rfl⟩
  | writeCount i h =>
      have key : ∀ x : Fin n,
          ReentrantSpinMutex.activeB
              (Function.update c.pc i (ReentrantSpinMutex.Pc.cs 1) x) = true →
            ReentrantSpinMutex.activeB (c.pc x) = true := by
        intro x hx
        by_cases hxi : x = i
        · subst hxi
          rw [h]
          rfl
        · rw [Function.update_noteq hxi] at hx
          exact hx
      refine ⟨?_, ?_, ?_⟩
      · intro a b ha hb
        exact hU a b (key a ha) (key b hb)
      · intro a ha
        exact hF a (key a ha)
      · intro hne
        obtain ⟨a, haOwn, haEq⟩ := hD hne
        by_cases hai : a = i
        · subst hai
          have hupd : ReentrantSpinMutex.owningB
              (Function.update c.pc a (ReentrantSpinMutex.Pc.cs 1) a) = true := by
            rw [Function.update_same]
            rfl
          exact ⟨a, hupd, haEq⟩
        · have hupd : ReentrantSpinMutex.owningB
              (Function.update c.pc i (ReentrantSpinMutex.Pc.cs 1) a) = true := by
            rw [Function.update_noteq hai]
            exact haOwn
          exact ⟨a, hupd, haEq⟩
  | unlockDec i d h =>
      have hval : ReentrantSpinMutex.activeB
          (if c.reenCount - 1 = 0 then ReentrantSpinMutex.Pc.relA
            else ReentrantSpinMutex.Pc.cs (d - 1)) = true := by
        split <;> rfl
      have hvalOwn : ReentrantSpinMutex.owningB
          (if c.reenCount - 1 = 0 then ReentrantSpinMutex.Pc.relA
            else ReentrantSpinMutex.Pc.cs (d - 1)) = true := by
        split <;> rfl
      have key : ∀ x : Fin n,
          ReentrantSpinMutex.activeB
              (Function.update c.pc i
                (if c.reenCount - 1 = 0 then ReentrantSpinMutex.Pc.relA
                  else ReentrantSpinMutex.Pc.cs (d - 1)) x) = true →
            ReentrantSpinMutex.activeB (c.pc x) = true := by
        intro x hx
        by_cases hxi : x = i
        · subst hxi
          rw [h]
          rfl
        · rw [Function.update_noteq hxi] at hx
          exact hx
      refine ⟨?_, ?_, ?_⟩
      · intro a b ha hb
        exact hU a b (key a ha) (key b hb)
      · intro a ha
        exact hF a (key a ha)
      · intro hne
        obtain ⟨a, haOwn, haEq⟩ := hD hne
        by_cases hai : a = i
        · subst hai
          have hupd : ReentrantSpinMutex.owningB
              (Function.update c.pc a
                (if c.reenCount - 1 = 0 then ReentrantSpinMutex.Pc.relA
                  else ReentrantSpinMutex.Pc.cs (d - 1)) a) = true := by
            rw [Function.update_same]
            exact hvalOwn
          exact ⟨a, hupd, haEq⟩
        · have hupd : ReentrantSpinMutex.owningB
              (Function.update c.pc i
                (if c.reenCount - 1 = 0 then ReentrantSpinMutex.Pc.relA
                  else ReentrantSpinMutex.Pc.cs (d - 1)) a) = true := by
            rw [Function.update_noteq hai]
            exact haOwn
          exact ⟨a, hupd, haEq⟩
  | clearOwner i h =>
      have key : ∀ x : Fin n,
          ReentrantSpinMutex.activeB
              (Function.update c.pc i ReentrantSpinMutex.Pc.relB x) = true →
            ReentrantSpinMutex.activeB (c.pc x) = true := by
        intro x hx
        by_cases hxi : x = i
        · subst hxi
          rw [h]
          rfl
        · rw [Function.update_noteq hxi] at hx
          exact hx
      refine ⟨?_, ?_, ?_⟩
      · intro a b ha hb
        exact hU a b (key a ha) (key b hb)
      · intro a ha
        exact hF a (key a ha)
      · intro hne
        exact absurd rfl hne
  | clearFlag i h =>
      have key : ∀ x : Fin n,
          ReentrantSpinMutex.activeB
              (Function.update c.pc i ReentrantSpinMutex.Pc.idle x) = true → False := by
        intro x hx
        by_cases hxi : x = i
        · subst hxi
          rw [Function.update_same] at hx
          simp [ReentrantSpinMutex.activeB] at hx
        · rw [Function.update_noteq hxi] at hx
          exact hxi (hU x i hx (by rw [h]; rfl))
      refine ⟨?_, ?_, ?_⟩
      · intro a b ha hb
        exact (key a ha).elim
      · intro a ha
        exact (key a ha).elim
      · intro hne
        obtain ⟨a, haOwn, _⟩ := hD hne
        have hai : a = i := hU a i (rsm_owning_active haOwn) (by rw [h]; rfl)
        rw [hai, h] at haOwn
        simp [ReentrantSpinMutex.owningB] at haOwn

theorem rsm_inv_reach {n : Nat} {c : ReentrantSpinMutex.Cfg n}
    (h : ReentrantSpinMutex.ReachCfg c) : ReentrantSpinMutex.Inv c := by
  induction h with
  | refl => exact rsm_inv_init n
  | tail hr hstep ih => exact rsm_inv_step ih hstep

/- C1/C6 helpers: invariant of the SharedSpinMutex system. -/
theorem ssm_sum_rweight_update {n : Nat} (pc : Fin n → SharedSpinMutex.Pc) (i : Fin n)
    (v : SharedSpinMutex.Pc) :
    (∑ j, (SharedSpinMutex.rweight (Function.update pc i v j) : Int))
      = (∑ j, (SharedSpinMutex.rweight (pc j) : Int))
        - (SharedSpinMutex.rweight (pc i) : Int) + (SharedSpinMutex.rweight v : Int) := by
  have hfun : ∀ j, (SharedSpinMutex.rweight (Function.update pc i v j) : Int)
      = Function.update (fun k => (SharedSpinMutex.rweight (pc k) : Int)) i
          ((SharedSpinMutex.rweight v : Int)) j := by
    intro j
    by_cases hj : j = i
    · subst hj
      rw [Function.update_same, Function.update_same]
    · rw [Function.update_noteq hj, Function.update_noteq hj]
  rw [Finset.sum_congr rfl (fun j _ => hfun j), sum_update_int]

theorem ssm_inv_init (n : Nat) : SharedSpinMutex.Inv (SharedSpinMutex.initCfg n) := by
  refine ⟨?_, ?_, ?_⟩
  · simp [SharedSpinMutex.initCfg, SharedSpinMutex.rweight]
  · intro i j hi
    simp [SharedSpinMutex.initCfg, SharedSpinMutex.wactive] at hi
  · intro i hi
    simp [SharedSpinMutex.initCfg, SharedSpinMutex.wactive] at hi

theorem ssm_inv_step {n : Nat} {c d : SharedSpinMutex.Cfg n} (hI : SharedSpinMutex.Inv c)
    (hs : SharedSpinMutex.Step c d) : SharedSpinMutex.Inv d := by
  obtain ⟨hS, hU, hF⟩ := hI
  cases hs with
  | rIncStep i k h =>
      have key : ∀ x : Fin n,
          SharedSpinMutex.wactive
              (Function.update c.pc i (SharedSpinMutex.Pc.rInc k) x) = true →
            SharedSpinMutex.wactive (c.pc x) = true := by
        intro x hx
        by_cases hxi : x = i
        · subst hxi
          rw [Function.update_same] at hx
          simp [SharedSpinMutex.wactive] at hx
        · rw [Function.update_noteq hxi] at hx
          exact hx
      refine ⟨?_, ?_, ?_⟩
      · show c.readCount + 1
          = ∑ j, (SharedSpinMutex.rweight
              (Function.update c.pc i (SharedSpinMutex.Pc.rInc k) j) : Int)
        rw [ssm_sum_rweight_update, h, ← hS]
        simp [SharedSpinMutex.rweight]
        omega
      · intro a b ha hb
        exact hU a b (key a ha) (key b hb)
      · intro a ha
        exact hF a (key a ha)
  | rEnter i k h hf =>
      have key : ∀ x : Fin n,
          SharedSpinMutex.wactive
              (Function.update c.pc i (SharedSpinMutex.Pc.shr (k + 1)) x) = true →
            SharedSpinMutex.wactive (c.pc x) = true := by
        intro x hx
        by_cases hxi : x = i
        · subst hxi
          rw [Function.update_same] at hx
          simp [SharedSpinMutex.wactive] at hx
        · rw [Function.update_noteq hxi] at hx
          exact hx
      refine ⟨?_, ?_, ?_⟩
      · show c.readCount
          = ∑ j, (SharedSpinMutex.rweight
              (Function.update c.pc i (SharedSpinMutex.Pc.shr (k + 1)) j) : Int)
        rw [ssm_sum_rweight_update, h, ← hS]
        simp [SharedSpinMutex.rweight]
      · intro a b ha hb
        exact hU a b (key a ha) (key b hb)
      · intro a ha
        exact hF a (key a ha)
  | rSeeFlag i k h hf =>
      have key : ∀ x : Fin n,
          SharedSpinMutex.wactive
              (Function.update c.pc i (SharedSpinMutex.Pc.rUndo k) x) = true →
            SharedSpinMutex.wactive (c.pc x) = true := by
        intro x hx
        by_cases hxi : x = i
        · subst hxi
          rw [Function.update_same] at hx
          simp [SharedSpinMutex.wactive] at hx
        · rw [Function.update_noteq hxi] at hx
          exact hx
      refine ⟨?_, ?_, ?_⟩
      · show c.readCount
          = ∑ j, (SharedSpinMutex.rweight
              (Function.update c.pc i (SharedSpinMutex.Pc.rUndo k) j) : Int)
        rw [ssm_sum_rweight_update, h, ← hS]
        simp [SharedSpinMutex.rweight]
      · intro a b ha hb
        exact hU a b (key a ha) (key b hb)
      · intro a ha
        exact hF a (key a ha)
  | rUndoDec i k h =>
      have key : ∀ x : Fin n,
          SharedSpinMutex.wactive
              (Function.update c.pc i (SharedSpinMutex.Pc.shr k) x) = true →
            SharedSpinMutex.wactive (c.pc x) = true := by
        intro x hx
        by_cases hxi : x = i
        · subst hxi
          rw [Function.update_same] at hx
          simp [SharedSpinMutex.wactive] at hx
        · rw [Function.update_noteq hxi] at hx
          exact hx
      refine ⟨?_, ?_, ?_⟩
      · show c.readCount - 1
          = ∑ j, (SharedSpinMutex.rweight
              (Function.update c.pc i (SharedSpinMutex.Pc.shr k) j) : Int)
        rw [ssm_sum_rweight_update, h, ← hS]
        simp [SharedSpinMutex.rweight]
        omega
      · intro a b ha hb
        exact hU a b (key a ha) (key b hb)
      · intro a ha
        exact hF a (key a ha)
  | rRelease i k h =>
      have key : ∀ x : Fin n,
          SharedSpinMutex.wactive
              (Function.update c.pc i (SharedSpinMutex.Pc.shr k) x) = true →
            SharedSpinMutex.wactive (c.pc x) = true := by
        intro x hx
        by_cases hxi : x = i
        · subst hxi
          rw [Function.update_same] at hx
          simp [SharedSpinMutex.wactive] at hx
        · rw [Function.update_noteq hxi] at hx
          exact hx
      refine ⟨?_, ?_, ?_⟩
      · show c.readCount - 1
          = ∑ j, (SharedSpinMutex.rweight
              (Function.update c.pc i (SharedSpinMutex.Pc.shr k) j) : Int)
        rw [ssm_sum_rweight_update, h, ← hS]
        simp [SharedSpinMutex.rweight]
        omega
      · intro a b ha hb
        exact hU a b (key a ha) (key b hb)
      · intro a ha
        exact hF a (key a ha)
  | wAcquire i h hf =>
      have key : ∀ x : Fin n,
          SharedSpinMutex.wactive
              (Function.update c.pc i SharedSpinMutex.Pc.wAcq x) = true → x = i := by
        intro x hx
        by_cases hxi : x = i
        · exact hxi
        · rw [Function.update_noteq hxi] at hx
          have hfx := hF x hx
          rw [hf] at hfx
          cases hfx
      refine ⟨?_, ?_, ?_⟩
      · show c.readCount
          = ∑ j, (SharedSpinMutex.rweight
              (Function.update c.pc i SharedSpinMutex.Pc.wAcq j) : Int)
        rw [ssm_sum_rweight_update, h, ← hS]
        simp [SharedSpinMutex.rweight]
      · intro a b ha hb
        rw [key a ha, key b hb]
      · intro a _ha
        rfl
  | wDrain i h hr =>
      have key : ∀ x : Fin n,
          SharedSpinMutex.wactive
              (Function.update c.pc i SharedSpinMutex.Pc.wOwn x) = true →
            SharedSpinMutex.wactive (c.pc x) = true := by
        intro x hx
        by_cases hxi : x = i
        · subst hxi
          rw [h]
          rfl
        · rw [Function.update_noteq hxi] at hx
          exact hx
      refine ⟨?_, ?_, ?_⟩
      · show c.readCount
          = ∑ j, (SharedSpinMutex.rweight
              (Function.update c.pc i SharedSpinMutex.Pc.wOwn j) : Int)
        rw [ssm_sum_rweight_update, h, ← hS]
        simp [SharedSpinMutex.rweight]
      · intro a b ha hb
        exact hU a b (key a ha) (key b hb)
      · intro a ha
        exact hF a (key a ha)
  | wWriteOwner i h =>
      have key : ∀ x : Fin n,
          SharedSpinMutex.wactive
              (Function.update c.pc i SharedSpinMutex.Pc.wCS x) = true →
            SharedSpinMutex.wactive (c.pc x) = true := by
        intro x hx
        by_cases hxi : x = i
        · subst hxi
          rw [h]
          rfl
        · rw [Function.update_noteq hxi] at hx
          exact hx
      refine ⟨?_, ?_, ?_⟩
      · show c.readCount
          = ∑ j, (SharedSpinMutex.rweight
              (Function.update c.pc i SharedSpinMutex.Pc.wCS j) : Int)
        rw [ssm_sum_rweight_update, h, ← hS]
        simp [SharedSpinMutex.rweight]
      · intro a b ha hb
        exact hU a b (key a ha) (key b hb)
      · intro a ha
        exact hF a (key a ha)
  | wClearOwner i h =>
      have key : ∀ x : Fin n,
          SharedSpinMutex.wactive
              (Function.update c.pc i SharedSpinMutex.Pc.wRel x) = true →
            SharedSpinMutex.wactive (c.pc x) = true := by
        intro x hx
        by_cases hxi : x = i
        · subst hxi
          rw [h]
          rfl
        · rw [Function.update_noteq hxi] at hx
          exact hx
      refine ⟨?_, ?_, ?_⟩
      · show c.readCount
          = ∑ j, (SharedSpinMutex.rweight
              (Function.update c.pc i SharedSpinMutex.Pc.wRel j) : Int)
        rw [ssm_sum_rweight_update, h, ← hS]
        simp [SharedSpinMutex.rweight]
      · intro a b ha hb
        exact hU a b (key a ha) (key b hb)
      · intro a ha
        exact hF a (key a ha)
  | wClearFlag i h =>
      have key : ∀ x : Fin n,
          SharedSpinMutex.wactive
              (Function.update c.pc i (SharedSpinMutex.Pc.shr 0) x) = true → False := by
        intro x hx
        by_cases hxi : x = i
        · subst hxi
          rw [Function.update_same] at hx
          simp [SharedSpinMutex.wactive] at hx
        · rw [Function.update_noteq hxi] at hx
          exact hxi (hU x i hx (by rw [h]; rfl))
      refine ⟨?_, ?_, ?_⟩
      · show c.readCount
          = ∑ j, (SharedSpinMutex.rweight
              (Function.update c.pc i (SharedSpinMutex.Pc.shr 0) j) : Int)
        rw [ssm_sum_rweight_update, h, ← hS]
        simp [SharedSpinMutex.rweight]
      · intro a b ha hb
        exact (key a ha).elim
      · intro a ha
        exact (key a ha).elim

theorem ssm_inv_reach {n : Nat} {c : SharedSpinMutex.Cfg n}
    (h : SharedSpinMutex.ReachCfg c) : SharedSpinMutex.Inv c := by
  induction h with
  | refl => exact ssm_inv_init n
  | tail hr hstep ih => exact ssm_inv_step ih hstep

/- Generic helpers: boolean thread-location predicates across a pointwise
   update of the location map. -/
theorem update_pred_transfer {α β : Type} [DecidableEq α] (f : α → β) (i : α) (v : β)
    (B : β → Bool) (hv : B v = true → B (f i) = true) :
    ∀ x, B (Function.update f i v x) = true → B (f x) = true := by
  intro x hx
  by_cases hxi : x = i
  · subst hxi
    rw [Function.update_same] at hx
    exact hv hx
  · rw [Function.update_noteq hxi] at hx
    exact hx

theorem update_pred_witness {α β : Type} [DecidableEq α] (f : α → β) (i : α) (v : β)
    (B : β → Bool) (hv : B (f i) = true → B v = true) :
    ∀ a, B (f a) = true → B (Function.update f i v a) = true := by
  intro a ha
  by_cases hai : a = i
  · subst hai
    rw [Function.update_same]
    exact hv ha
  · rw [Function.update_noteq hai]
    exact ha

/- C1/C6 helpers: invariant of the ReentrantSharedSpinMutex system. -/
theorem rssm_owning_wactive {p : ReentrantSharedSpinMutex.Pc}
    (h : ReentrantSharedSpinMutex.owningB p = true) :
    ReentrantSharedSpinMutex.wactive p = true := by
  cases p <;>
    simp [ReentrantSharedSpinMutex.owningB, ReentrantSharedSpinMutex.wactive] at h ⊢

theorem rssm_sum_rweight_update {n : Nat} (pc : Fin n → ReentrantSharedSpinMutex.Pc)
    (i : Fin n) (v : ReentrantSharedSpinMutex.Pc) :
    (∑ j, (ReentrantSharedSpinMutex.rweight (Function.update pc i v j) : Int))
      = (∑ j, (ReentrantSharedSpinMutex.rweight (pc j) : Int))
        - (ReentrantSharedSpinMutex.rweight (pc i) : Int)
        + (ReentrantSharedSpinMutex.rweight v : Int) := by
  have hfun : ∀ j, (ReentrantSharedSpinMutex.rweight (Function.update pc i v j) : Int)
      = Function.update (fun k => (ReentrantSharedSpinMutex.rweight (pc k) : Int)) i
          ((ReentrantSharedSpinMutex.rweight v : Int)) j := by
    intro j
    by_cases hj : j = i
    · subst hj
      rw [Function.update_same, Function.update_same]
    · rw [Function.update_noteq hj, Function.update_noteq hj]
  rw [Finset.sum_congr rfl (fun j _ => hfun j), sum_update_int]

theorem rssm_inv_init (n : Nat) :
    ReentrantSharedSpinMutex.Inv (ReentrantSharedSpinMutex.initCfg n) := by
  refine ⟨?_, ?_, ?_, ?_⟩
  · simp [ReentrantSharedSpinMutex.initCfg, ReentrantSharedSpinMutex.rweight]
  · intro i j hi
    simp [ReentrantSharedSpinMutex.initCfg, ReentrantSharedSpinMutex.wactive] at hi
  · intro i hi
    simp [ReentrantSharedSpinMutex.initCfg, ReentrantSharedSpinMutex.wactive] at hi
  · intro hne
    exact absurd rfl hne

set_option maxHeartbeats 2000000 in
theorem rssm_inv_step {n : Nat} {c d : ReentrantSharedSpinMutex.Cfg n}
    (hI : ReentrantSharedSpinMutex.Inv c) (hs : ReentrantSharedSpinMutex.Step c d) :
    ReentrantSharedSpinMutex.Inv d := by
  obtain ⟨hS, hU, hF, hD⟩ := hI
  cases hs with
  | rIncStep i k h =>
      have kact := update_pred_transfer c.pc i (ReentrantSharedSpinMutex.Pc.rInc k)
        ReentrantSharedSpinMutex.wactive
        (by intro hx; simp [ReentrantSharedSpinMutex.wactive] at hx)
      have kown := update_pred_witness c.pc i (ReentrantSharedSpinMutex.Pc.rInc k)
        ReentrantSharedSpinMutex.owningB
        (by rw [h]; intro hx; simp [ReentrantSharedSpinMutex.owningB] at hx)
      refine ⟨?_, ?_, ?_, ?_⟩
      · show c.readCount + 1
          = ∑ j, (ReentrantSharedSpinMutex.rweight
              (Function.update c.pc i (ReentrantSharedSpinMutex.Pc.rInc k) j) : Int)
        rw [rssm_sum_rweight_update, h, ← hS]
        simp [ReentrantSharedSpinMutex.rweight]
        omega
      · intro a b ha hb
        exact hU a b (kact a ha) (kact b hb)
      · intro a ha
        exact hF a (kact a ha)
      · intro hne
        obtain ⟨a, haOwn, haEq⟩ := hD hne
        exact ⟨a, kown a haOwn, haEq⟩
  | rEnter i k h hf =>
      have kact := update_pred_transfer c.pc i (ReentrantSharedSpinMutex.Pc.shr (k + 1))
        ReentrantSharedSpinMutex.wactive
        (by intro hx; simp [ReentrantSharedSpinMutex.wactive] at hx)
      have kown := update_pred_witness c.pc i (ReentrantSharedSpinMutex.Pc.shr (k + 1))
        ReentrantSharedSpinMutex.owningB
        (by rw [h]; intro hx; simp [ReentrantSharedSpinMutex.owningB] at hx)
      refine ⟨?_, ?_, ?_, ?_⟩
      · show c.readCount
          = ∑ j, (ReentrantSharedSpinMutex.rweight
              (Function.update c.pc i (ReentrantSharedSpinMutex.Pc.shr (k + 1)) j) : Int)
        rw [rssm_sum_rweight_update, h, ← hS]
        simp [ReentrantSharedSpinMutex.rweight]
      · intro a b ha hb
        exact hU a b (kact a ha) (kact b hb)
      · intro a ha
        exact hF a (kact a ha)
      · intro hne
        obtain ⟨a, haOwn, haEq⟩ := hD hne
        exact ⟨a, kown a haOwn, haEq⟩
  | rSeeFlag i k h hf =>
      have kact := update_pred_transfer c.pc i (ReentrantSharedSpinMutex.Pc.rUndo k)
        ReentrantSharedSpinMutex.wactive
        (by intro hx; simp [ReentrantSharedSpinMutex.wactive] at hx)
      have kown := update_pred_witness c.pc i (ReentrantSharedSpinMutex.Pc.rUndo k)
        ReentrantSharedSpinMutex.owningB
        (by rw [h]; intro hx; simp [ReentrantSharedSpinMutex.owningB] at hx)
      refine ⟨?_, ?_, ?_, ?_⟩
      · show c.readCount
          = ∑ j, (ReentrantSharedSpinMutex.rweight
              (Function.update c.pc i (ReentrantSharedSpinMutex.Pc.rUndo k) j) : Int)
        rw [rssm_sum_rweight_update, h, ← hS]
        simp [ReentrantSharedSpinMutex.rweight]
      · intro a b ha hb
        exact hU a b (kact a ha) (kact b hb)
      · intro a ha
        exact hF a (kact a ha)
      · intro hne
        obtain ⟨a, haOwn, haEq⟩ := hD hne
        exact ⟨a, kown a haOwn, haEq⟩
  | rUndoDec i k h =>
      have kact := update_pred_transfer c.pc i (ReentrantSharedSpinMutex.Pc.shr k)
        ReentrantSharedSpinMutex.wactive
        (by intro hx; simp [ReentrantSharedSpinMutex.wactive] at hx)
      have kown := update_pred_witness c.pc i (ReentrantSharedSpinMutex.Pc.shr k)
        ReentrantSharedSpinMutex.owningB
        (by rw [h]; intro hx; simp [ReentrantSharedSpinMutex.owningB] at hx)
      refine ⟨?_, ?_, ?_, ?_⟩
      · show c.readCount - 1
          = ∑ j, (ReentrantSharedSpinMutex.rweight
              (Function.update c.pc i (ReentrantSharedSpinMutex.Pc.shr k) j) : Int)
        rw [rssm_sum_rweight_update, h, ← hS]
        simp [ReentrantSharedSpinMutex.rweight]
        omega
      · intro a b ha hb
        exact hU a b (kact a ha) (kact b hb)
      · intro a ha
        exact hF a (kact a ha)
      · intro hne
        obtain ⟨a, haOwn, haEq⟩ := hD hne
        exact ⟨a, kown a haOwn, haEq⟩
  | rRelease i k h =>
      have kact := update_pred_transfer c.pc i (ReentrantSharedSpinMutex.Pc.shr k)
        ReentrantSharedSpinMutex.wactive
        (by intro hx; simp [ReentrantSharedSpinMutex.wactive] at hx)
      have kown := update_pred_witness c.pc i (ReentrantSharedSpinMutex.Pc.shr k)
        ReentrantSharedSpinMutex.owningB
        (by rw [h]; intro hx; simp [ReentrantSharedSpinMutex.owningB] at hx)
      refine ⟨?_, ?_, ?_, ?_⟩
      · show c.readCount - 1
          = ∑ j, (ReentrantSharedSpinMutex.rweight
              (Function.update c.pc i (ReentrantSharedSpinMutex.Pc.shr k) j) : Int)
        rw [rssm_sum_rweight_update, h, ← hS]
        simp [ReentrantSharedSpinMutex.rweight]
        omega
      · intro a b ha hb
        exact hU a b (kact a ha) (kact b hb)
      · intro a ha
        exact hF a (kact a ha)
      · intro hne
        obtain ⟨a, haOwn, haEq⟩ := hD hne
        exact ⟨a, kown a haOwn, haEq⟩
  | fastIdle i h hown =>
      exfalso
      obtain ⟨a, haOwn, haEq⟩ := hD (by rw [hown]; exact tidOf_ne_zero i)
      have hai : a = i := tidOf_inj (haEq.symm.trans hown)
      subst hai
      rw [h] at haOwn
      simp [ReentrantSharedSpinMutex.owningB] at haOwn
  | fastNest i d h hown =>
      have kact := update_pred_transfer c.pc i (ReentrantSharedSpinMutex.Pc.wCS (d + 1))
        ReentrantSharedSpinMutex.wactive (by intro _; rw [h]; rfl)
      have kown := update_pred_witness c.pc i (ReentrantSharedSpinMutex.Pc.wCS (d + 1))
        ReentrantSharedSpinMutex.owningB (by intro _; rfl)
      refine ⟨?_, ?_, ?_, ?_⟩
      · show c.readCount
          = ∑ j, (ReentrantSharedSpinMutex.rweight
              (Function.update c.pc i (ReentrantSharedSpinMutex.Pc.wCS (d + 1)) j) : Int)
        rw [rssm_sum_rweight_update, h, ← hS]
        simp [ReentrantSharedSpinMutex.rweight]
      · intro a b ha hb
        exact hU a b (kact a ha) (kact b hb)
      · intro a ha
        exact hF a (kact a ha)
      · intro hne
        obtain ⟨a, haOwn, haEq⟩ := hD hne
        exact ⟨a, kown a haOwn, haEq⟩
  | wAcquire i h hown hf =>
      have key : ∀ x : Fin n,
          ReentrantSharedSpinMutex.wactive
              (Function.update c.pc i ReentrantSharedSpinMutex.Pc.wAcq x) = true →
            x = i := by
        intro x hx
        by_cases hxi : x = i
        · exact hxi
        · rw [Function.update_noteq hxi] at hx
          have hfx := hF x hx
          rw [hf] at hfx
          cases hfx
      refine ⟨?_, ?_, ?_, ?_⟩
      · show c.readCount
          = ∑ j, (ReentrantSharedSpinMutex.rweight
              (Function.update c.pc i ReentrantSharedSpinMutex.Pc.wAcq j) : Int)
        rw [rssm_sum_rweight_update, h, ← hS]
        simp [ReentrantSharedSpinMutex.rweight]
      · intro a b ha hb
        rw [key a ha, key b hb]
      · intro a _ha
        rfl
      · intro hne
        obtain ⟨a, haOwn, _⟩ := hD hne
        have hfa := hF a (rssm_owning_wactive haOwn)
        rw [hf] at hfa
        cases hfa
  | wDrain i h hr =>
      have kact := update_pred_transfer c.pc i ReentrantSharedSpinMutex.Pc.wOwn
        ReentrantSharedSpinMutex.wactive (by intro _; rw [h]; rfl)
      have kown := update_pred_witness c.pc i ReentrantSharedSpinMutex.Pc.wOwn
        ReentrantSharedSpinMutex.owningB
        (by rw [h]; intro hx; simp [ReentrantSharedSpinMutex.owningB] at hx)
      refine ⟨?_, ?_, ?_, ?_⟩
      · show c.readCount
          = ∑ j, (ReentrantSharedSpinMutex.rweight
              (Function.update c.pc i ReentrantSharedSpinMutex.Pc.wOwn j) : Int)
        rw [rssm_sum_rweight_update, h, ← hS]
        simp [ReentrantSharedSpinMutex.rweight]
      · intro a b ha hb
        exact hU a b (kact a ha) (kact b hb)
      · intro a ha
        exact hF a (kact a ha)
      · intro hne
        obtain ⟨a, haOwn, haEq⟩ := hD hne
        exact ⟨a, kown a haOwn, haEq⟩
  | wWriteOwner i h =>
      have kact := update_pred_transfer c.pc i ReentrantSharedSpinMutex.Pc.wCnt
        ReentrantSharedSpinMutex.wactive (by intro _; rw [h]; rfl)
      refine ⟨?_, ?_, ?_, ?_⟩
      · show c.readCount
          = ∑ j, (ReentrantSharedSpinMutex.rweight
              (Function.update c.pc i ReentrantSharedSpinMutex.Pc.wCnt j) : Int)
        rw [rssm_sum_rweight_update, h, ← hS]
        simp [ReentrantSharedSpinMutex.rweight]
      · intro a b ha hb
        exact hU a b (kact a ha) (kact b hb)
      · intro a ha
        exact hF a (kact a ha)
      · intro _hne
        have hupd : ReentrantSharedSpinMutex.owningB
            (Function.update c.pc i ReentrantSharedSpinMutex.Pc.wCnt i) = true := by
          rw [Function.update_same]
          rfl
        exact ⟨i, hupd, rfl⟩
  | wWriteCount i h =>
      have kact := update_pred_transfer c.pc i (ReentrantSharedSpinMutex.Pc.wCS 1)
        ReentrantSharedSpinMutex.wactive (by intro _; rw [h]; rfl)
      have kown := update_pred_witness c.pc i (ReentrantSharedSpinMutex.Pc.wCS 1)
        ReentrantSharedSpinMutex.owningB (by intro _; rfl)
      refine ⟨?_, ?_, ?_, ?_⟩
      · show c.readCount
          = ∑ j, (ReentrantSharedSpinMutex.rweight
              (Function.update c.pc i (ReentrantSharedSpinMutex.Pc.wCS 1) j) : Int)
        rw [rssm_sum_rweight_update, h, ← hS]
        simp [ReentrantSharedSpinMutex.rweight]
      · intro a b ha hb
        exact hU a b (kact a ha) (kact b hb)
      · intro a ha
        exact hF a (kact a ha)
      · intro hne
        obtain ⟨a, haOwn, haEq⟩ := hD hne
        exact ⟨a, kown a haOwn, haEq⟩
  | unlockDec i d h =>
      have hw : ReentrantSharedSpinMutex.rweight
          (if c.reenCount - 1 = 0 then ReentrantSharedSpinMutex.Pc.relA
            else ReentrantSharedSpinMutex.Pc.wCS (d - 1)) = 0 := by
        split <;> rfl
      have kact := update_pred_transfer c.pc i
        (if c.reenCount - 1 = 0 then ReentrantSharedSpinMutex.Pc.relA
          else ReentrantSharedSpinMutex.Pc.wCS (d - 1))
        ReentrantSharedSpinMutex.wactive (by intro _; rw [h]; rfl)
      have kown := update_pred_witness c.pc i
        (if c.reenCount - 1 = 0 then ReentrantSharedSpinMutex.Pc.relA
          else ReentrantSharedSpinMutex.Pc.wCS (d - 1))
        ReentrantSharedSpinMutex.owningB (by intro _; split <;> rfl)
      refine ⟨?_, ?_, ?_, ?_⟩
      · show c.readCount
          = ∑ j, (ReentrantSharedSpinMutex.rweight
              (Function.update c.pc i
                (if c.reenCount - 1 = 0 then ReentrantSharedSpinMutex.Pc.relA
                  else ReentrantSharedSpinMutex.Pc.wCS (d - 1)) j) : Int)
        rw [rssm_sum_rweight_update, h, ← hS, hw]
        simp [ReentrantSharedSpinMutex.rweight]
      · intro a b ha hb
        exact hU a b (kact a ha) (kact b hb)
      · intro a ha
        exact hF a (kact a ha)
      · intro hne
        obtain ⟨a, haOwn, haEq⟩ := hD hne
        exact ⟨a, kown a haOwn, haEq⟩
  | clearOwner i h =>
      have kact := update_pred_transfer c.pc i ReentrantSharedSpinMutex.Pc.relB
        ReentrantSharedSpinMutex.wactive (by intro _; rw [h]; rfl)
      refine ⟨?_, ?_, ?_, ?_⟩
      · show c.readCount
          = ∑ j, (ReentrantSharedSpinMutex.rweight
              (Function.update c.pc i ReentrantSharedSpinMutex.Pc.relB j) : Int)
        rw [rssm_sum_rweight_update, h, ← hS]
        simp [ReentrantSharedSpinMutex.rweight]
      · intro a b ha hb
        exact hU a b (kact a ha) (kact b hb)
      · intro a ha
        exact hF a (kact a ha)
      · intro hne
        exact absurd rfl hne
  | clearFlag i h =>
      have key : ∀ x : Fin n,
          ReentrantSharedSpinMutex.wactive
              (Function.update c.pc i (ReentrantSharedSpinMutex.Pc.shr 0) x) = true →
            False := by
        intro x hx
        by_cases hxi : x = i
        · subst hxi
          rw [Function.update_same] at hx
          simp [ReentrantSharedSpinMutex.wactive] at hx
        · rw [Function.update_noteq hxi] at hx
          exact hxi (hU x i hx (by rw [h]; rfl))
      refine ⟨?_, ?_, ?_, ?_⟩
      · show c.readCount
          = ∑ j, (ReentrantSharedSpinMutex.rweight
              (Function.update c.pc i (ReentrantSharedSpinMutex.Pc.shr 0) j) : Int)
        rw [rssm_sum_rweight_update, h, ← hS]
        simp [ReentrantSharedSpinMutex.rweight]
      · intro a b ha hb
        exact (key a ha).elim
      · intro a ha
        exact (key a ha).elim
      · intro hne
        obtain ⟨a, haOwn, _⟩ := hD hne
        have hai : a = i := hU a i (rssm_owning_wactive haOwn) (by rw [h]; rfl)
        rw [hai, h] at haOwn
        simp [ReentrantSharedSpinMutex.owningB] at haOwn

theorem rssm_inv_reach {n : Nat} {c : ReentrantSharedSpinMutex.Cfg n}
    (h : ReentrantSharedSpinMutex.ReachCfg c) : ReentrantSharedSpinMutex.Inv c := by
  induction h with
  | refl => exact rssm_inv_init n
  | tail hr hstep ih => exact rssm_inv_step ih hstep

/-- C1: mutual exclusion for all four lock variants, in the sequentially
consistent interleaving model over a pool of threads with distinct nonzero
identities: in every reachable configuration, any two threads at the
critical-section location entered via the blocking exclusive lock()
coincide, so the critical sections of distinct threads never overlap. -/
theorem mutual_exclusion_all_variants :
    (∀ (n : Nat) (c : SpinMutex.Cfg n), SpinMutex.ReachCfg c →
      ∀ i j : Fin n, c.pc i = SpinMutex.Pc.cs → c.pc j = SpinMutex.Pc.cs → i = j)
  ∧ (∀ (n : Nat) (c : SharedSpinMutex.Cfg n), SharedSpinMutex.ReachCfg c →
      ∀ i j : Fin n, c.pc i = SharedSpinMutex.Pc.wCS →
        c.pc j = SharedSpinMutex.Pc.wCS → i = j)
  ∧ (∀ (n : Nat) (c : ReentrantSpinMutex.Cfg n), ReentrantSpinMutex.ReachCfg c →
      ∀ (i j : Fin n) (d e : Nat), c.pc i = ReentrantSpinMutex.Pc.cs d →
        c.pc j = ReentrantSpinMutex.Pc.cs e → i = j)
  ∧ (∀ (n : Nat) (c : ReentrantSharedSpinMutex.Cfg n),
      ReentrantSharedSpinMutex.ReachCfg c →
      ∀ (i j : Fin n) (d e : Nat), c.pc i = ReentrantSharedSpinMutex.Pc.wCS d →
        c.pc j = ReentrantSharedSpinMutex.Pc.wCS e → i = j) := by
  refine ⟨?_, ?_, ?_, ?_⟩
  · intro n c hreach i j hi hj
    exact (sm_inv_reach hreach).1 i j (by rw [hi]; rfl) (by rw [hj]; rfl)
  · intro n c hreach i j hi hj
    exact (ssm_inv_reach hreach).2.1 i j (by rw [hi]; rfl) (by rw [hj]; rfl)
  · intro n c hreach i j d e hi hj
    exact (rsm_inv_reach hreach).1 i j (by rw [hi]; rfl) (by rw [hj]; rfl)
  · intro n c hreach i j d e hi hj
    exact (rssm_inv_reach hreach).2.1 i j (by rw [hi]; rfl) (by rw [hj]; rfl)

/-- C1 witness: each of the four systems reaches a configuration in which
thread 0 occupies its critical section, and the theorem applied there gives
the (unique) holder. -/
theorem mutual_exclusion_all_variants_witness :
    SpinMutex.ReachCfg smW2 ∧ smW2.pc 0 = SpinMutex.Pc.cs
  ∧ SharedSpinMutex.ReachCfg ssmW3 ∧ ssmW3.pc 0 = SharedSpinMutex.Pc.wCS
  ∧ ReentrantSpinMutex.ReachCfg rsmW3 ∧ rsmW3.pc 0 = ReentrantSpinMutex.Pc.cs 1
  ∧ ReentrantSharedSpinMutex.ReachCfg rssmW4
  ∧ rssmW4.pc 0 = ReentrantSharedSpinMutex.Pc.wCS 1
  ∧ (0 : Fin 1) = 0 ∧ (0 : Fin 1) = 0 ∧ (0 : Fin 1) = 0 ∧ (0 : Fin 1) = 0 := by
  have h1 : SpinMutex.ReachCfg smW2 :=
    Relation.ReflTransGen.tail
      (Relation.ReflTransGen.tail Relation.ReflTransGen.refl
        (SpinMutex.Step.acquire (SpinMutex.initCfg 1) 0 rfl rfl))
      (SpinMutex.Step.writeOwner smW1 0 (by decide))
  have h2 : SharedSpinMutex.ReachCfg ssmW3 :=
    Relation.ReflTransGen.tail
      (Relation.ReflTransGen.tail
        (Relation.ReflTransGen.tail Relation.ReflTransGen.refl
          (SharedSpinMutex.Step.wAcquire (SharedSpinMutex.initCfg 1) 0 rfl rfl))
        (SharedSpinMutex.Step.wDrain ssmW1 0 (by decide) (by decide)))
      (SharedSpinMutex.Step.wWriteOwner ssmW2 0 (by decide))
  have h3 : ReentrantSpinMutex.ReachCfg rsmW3 :=
    Relation.ReflTransGen.tail
      (Relation.ReflTransGen.tail
        (Relation.ReflTransGen.tail Relation.ReflTransGen.refl
          (ReentrantSpinMutex.Step.acquire (ReentrantSpinMutex.initCfg 1) 0 rfl
            (by decide) rfl))
        (ReentrantSpinMutex.Step.writeOwner rsmW1 0 (by decide)))
      (ReentrantSpinMutex.Step.writeCount rsmW2 0 (by decide))
  have h4 : ReentrantSharedSpinMutex.ReachCfg rssmW4 :=
    Relation.ReflTransGen.tail
      (Relation.ReflTransGen.tail
        (Relation.ReflTransGen.tail
          (Relation.ReflTransGen.tail Relation.ReflTransGen.refl
            (ReentrantSharedSpinMutex.Step.wAcquire (ReentrantSharedSpinMutex.initCfg 1) 0
              rfl (by decide) rfl))
          (ReentrantSharedSpinMutex.Step.wDrain rssmW1 0 (by decide) (by decide)))
        (ReentrantSharedSpinMutex.Step.wWriteOwner rssmW2 0 (by decide)))
      (ReentrantSharedSpinMutex.Step.wWriteCount rssmW3 0 (by decide))
  refine ⟨h1, by decide, h2, by decide, h3, by decide, h4, by decide, ?_, ?_, ?_, ?_⟩
  · exact mutual_exclusion_all_variants.1 1 smW2 h1 0 0 (by decide) (by decide)
  · exact mutual_exclusion_all_variants.2.1 1 ssmW3 h2 0 0 (by decide) (by decide)
  · exact mutual_exclusion_all_variants.2.2.1 1 rsmW3 h3 0 0 1 1 (by decide) (by decide)
  · exact mutual_exclusion_all_variants.2.2.2 1 rssmW4 h4 0 0 1 1 (by decide) (by decide)

/-- C6: for the shared lock variants, the reader count is never observed
negative in any reachable configuration of the interleaving system of
lock_shared/unlock_shared (running alongside the exclusive operations). -/
theorem reader_count_nonneg :
    (∀ (n : Nat) (c : SharedSpinMutex.Cfg n), SharedSpinMutex.ReachCfg c →
      0 ≤ c.readCount)
  ∧ (∀ (n : Nat) (c : ReentrantSharedSpinMutex.Cfg n),
      ReentrantSharedSpinMutex.ReachCfg c → 0 ≤ c.readCount) := by
  constructor
  · intro n c hreach
    rw [(ssm_inv_reach hreach).1]
    exact Finset.sum_nonneg fun j _ => Nat.cast_nonneg _
  · intro n c hreach
    rw [(rssm_inv_reach hreach).1]
    exact Finset.sum_nonneg fun j _ => Nat.cast_nonneg _

/-- C6 witness: the bound applied at a reachable configuration with one
reader in flight on each shared variant. -/
theorem reader_count_nonneg_witness :
    0 ≤ ssmR1.readCount ∧ 0 ≤ rssmR1.readCount := by
  have h1 : SharedSpinMutex.ReachCfg ssmR1 :=
    Relation.ReflTransGen.tail Relation.ReflTransGen.refl
      (SharedSpinMutex.Step.rIncStep (SharedSpinMutex.initCfg 1) 0 0 rfl)
  have h2 : ReentrantSharedSpinMutex.ReachCfg rssmR1 :=
    Relation.ReflTransGen.tail Relation.ReflTransGen.refl
      (ReentrantSharedSpinMutex.Step.rIncStep (ReentrantSharedSpinMutex.initCfg 1) 0 0 rfl)
  exact ⟨reader_count_nonneg.1 1 ssmR1 h1, reader_count_nonneg.2 1 rssmR1 h2⟩
